import Mathlib

/-!
Verification of the allocator core of zdk (src/zalloc.h): a shallow embedding
of the arena (linear) allocator, the fixed-size pool allocator and the debug
guard allocator, together with proofs about the spec claims.

Modelling conventions:
* size_t and uintptr_t values are modelled as Nat; address arithmetic never
  wraps in the scenarios the claims quantify over, except in
  zdebug_calloc_loc where the C multiplication count * size wraps modulo
  2 ^ 64 and the wrap is modelled explicitly.
* The memory backend (Z_MALLOC / Z_REALLOC / Z_FREE, resp. the stdlib
  malloc / realloc / free called directly by the debug guard) is modelled as
  a bump allocator: every fresh allocation is placed at the current value of
  a counter (nextAddr) and the counter advances past it, so distinct backend
  allocations occupy disjoint address ranges and addresses are never reused.
  Backend failure is an explicit Bool parameter of each operation that can
  call into the backend.
* Every operation also returns the list of backend calls it performed, each
  tagged with the primitive used by the C source at that point: inj for the
  injected Z_MALLOC / Z_REALLOC / Z_FREE macros, std for a direct call of
  the C standard library malloc / realloc / free.
* Memory contents are tracked where a claim needs them: the debug guard
  tracks payload and canary bytes per allocation, and the pool tracks the
  intrusive free-list links written into slab memory.  The arena claims are
  about addresses and counters only, so arena payload bytes are not
  tracked (memset in zarena_alloc_zero is a no-op of the model).
-/

/-- A call into the memory backend.  The inj variants are calls through the
injected Z_MALLOC / Z_REALLOC / Z_FREE primitive, the std variants are direct
calls of the C standard library malloc / realloc / free. -/
inductive BackendCall where
  | injAlloc (size : Nat)
  | injRealloc (size : Nat)
  | injFree (addr : Nat)
  | stdAlloc (size : Nat)
  | stdRealloc (size : Nat)
  | stdFree (addr : Nat)
deriving Repr, DecidableEq

/-- True for calls that go through the injected backend primitive. -/
def BackendCall.isInjected : BackendCall → Bool
  | .injAlloc _ => true
  | .injRealloc _ => true
  | .injFree _ => true
  | _ => false

/-- True for direct calls of the C standard library allocator. -/
def BackendCall.isStdlib : BackendCall → Bool
  | .stdAlloc _ => true
  | .stdRealloc _ => true
  | .stdFree _ => true
  | _ => false

/-- Generic association-list lookup (first match), used for the debug guard
store and the pool free-list memory. -/
def alookup {β : Type} : List (Nat × β) → Nat → Option β
  | [], _ => none
  | (k, v) :: t, a => if k = a then some v else alookup t a

/-- Pointwise update of the first entry with the given key. -/
def aupd {β : Type} : List (Nat × β) → Nat → (β → β) → List (Nat × β)
  | [], _, _ => []
  | (k, v) :: t, a, f => if k = a then (k, f v) :: t else (k, v) :: aupd t a f

/-- Remove every entry with the given key. -/
def aremove {β : Type} (s : List (Nat × β)) (a : Nat) : List (Nat × β) :=
  s.filter (fun pr => pr.1 ≠ a)

/-- zarena_align_ptr: align p up to a multiple of a.  The C source computes
(p + (a - 1)) land lnot (a - 1), which for a power of two a equals the value
below; the claims only ever instantiate a with powers of two. -/
def alignPtr (p a : Nat) : Nat := (p + (a - 1)) - (p + (a - 1)) % a

/-- sizeof(struct zarena_block): the block header that precedes the inline
data buffer (next pointer, capacity, used on a 64-bit target). -/
def hdrA : Nat := 24

/-- ZARENA_DEFAULT_BLOCK_SIZE. -/
def ZARENA_DEFAULT_BLOCK_SIZE : Nat := 4096

/-- ZARENA_MAX_ALIGN, the alignment used by zarena_alloc. -/
def ZARENA_MAX_ALIGN : Nat := 16

/-- One arena block: base address of its data buffer, its capacity and the
used-byte cursor. -/
structure ZarenaBlock where
  base : Nat
  capacity : Nat
  used : Nat
deriving Repr, DecidableEq

/-- The arena.  blocks is the chain from first, in next-link order; headIdx
is the index of the block the head pointer designates (meaningful when
blocks is nonempty; the model keeps blocks empty exactly when head and first
are null).  nextAddr is the bump pointer of the modelled backend. -/
structure Zarena where
  blocks : List ZarenaBlock
  headIdx : Nat
  total_alloc : Nat
  nextAddr : Nat
deriving Repr, DecidableEq

/-- A freshly initialized arena (zarena_init zeroes the struct). -/
def zarena_empty : Zarena :=
  { blocks := [], headIdx := 0, total_alloc := 0, nextAddr := 0 }

/-- The slow path of zarena_alloc_align: allocate a new block (doubling the
current head capacity, or the default size when there is no head, clamped up
to size + align), insert it immediately after the current head and serve the
request from it.  ok is the success of the backend Z_MALLOC call. -/
def zarena_grow (a : Zarena) (size align : Nat) (ok : Bool) :
    Option Nat × Zarena × List BackendCall :=
  let base_cap :=
    match a.blocks[a.headIdx]? with
    | some hb => hb.capacity * 2
    | none => ZARENA_DEFAULT_BLOCK_SIZE
  let next_cap := if base_cap < size + align then size + align else base_cap
  let ev := [BackendCall.injAlloc (hdrA + next_cap)]
  if ok then
    let base := a.nextAddr + hdrA
    let start := alignPtr base align
    let padding := start - base
    let b : ZarenaBlock := { base := base, capacity := next_cap, used := size + padding }
    match a.blocks[a.headIdx]? with
    | some _ =>
        (some start,
         { blocks := a.blocks.take (a.headIdx + 1) ++ b :: a.blocks.drop (a.headIdx + 1),
           headIdx := a.headIdx + 1,
           total_alloc := a.total_alloc + size,
           nextAddr := a.nextAddr + hdrA + next_cap }, ev)
    | none =>
        (some start,
         { blocks := [b], headIdx := 0,
           total_alloc := a.total_alloc + size,
           nextAddr := a.nextAddr + hdrA + next_cap }, ev)
  else (none, a, ev)

/-- zarena_alloc_align.  Returns the served address (none for a zero size or
backend failure), the new arena and the backend calls made. -/
def zarena_alloc_align (a : Zarena) (size align : Nat) (ok : Bool) :
    Option Nat × Zarena × List BackendCall :=
  if size = 0 then (none, a, [])
  else
    match a.blocks[a.headIdx]? with
    | some hb =>
      let curr := hb.base + hb.used
      let nxt := alignPtr curr align
      let needed := size + (nxt - curr)
      if hb.used + needed ≤ hb.capacity then
        (some nxt,
         { a with
             blocks := a.blocks.set a.headIdx { hb with used := hb.used + needed },
             total_alloc := a.total_alloc + size }, [])
      else
        match a.blocks[a.headIdx + 1]? with
        | some nb =>
          let start := alignPtr nb.base align
          let padding := start - nb.base
          if size + padding ≤ nb.capacity then
            (some start,
             { a with
                 headIdx := a.headIdx + 1,
                 blocks := a.blocks.set (a.headIdx + 1) { nb with used := size + padding },
                 total_alloc := a.total_alloc + size }, [])
          else zarena_grow a size align ok
        | none => zarena_grow a size align ok
    | none => zarena_grow a size align ok

/-- zarena_alloc: alloc_align at the fixed maximum alignment. -/
def zarena_alloc (a : Zarena) (size : Nat) (ok : Bool) :
    Option Nat × Zarena × List BackendCall :=
  zarena_alloc_align a size ZARENA_MAX_ALIGN ok

/-- zarena_alloc_zero: as zarena_alloc; the zero fill touches memory the
arena model does not track. -/
def zarena_alloc_zero (a : Zarena) (size : Nat) (ok : Bool) :
    Option Nat × Zarena × List BackendCall :=
  zarena_alloc a size ok

/-- zarena_reset: zero every used cursor, rewind head to first, zero
total_alloc.  No backend call is made. -/
def zarena_reset (a : Zarena) : Zarena :=
  { a with
      blocks := a.blocks.map (fun b => { b with used := 0 }),
      headIdx := 0,
      total_alloc := 0 }

/-- zarena_free: walk the chain from first, releasing every block through
Z_FREE (a block pointer is hdrA bytes before its data buffer, the address
zarena_grow obtained from the backend), then zero the struct.  The bump
pointer is backend state, not arena-struct state, so it survives the
memset. -/
def zarena_free (a : Zarena) : Zarena × List BackendCall :=
  ({ blocks := [], headIdx := 0, total_alloc := 0, nextAddr := a.nextAddr },
   a.blocks.map (fun b => BackendCall.injFree (b.base - hdrA)))

/-- zarena_realloc.  old is the old pointer (none models NULL). -/
def zarena_realloc (a : Zarena) (old : Option Nat) (old_size new_size : Nat)
    (ok : Bool) : Option Nat × Zarena × List BackendCall :=
  match old with
  | none => zarena_alloc a new_size ok
  | some p =>
    if new_size = 0 then (none, a, [])
    else if new_size ≤ old_size then (some p, a, [])
    else
      let relocate :=
        let r := zarena_alloc a new_size ok
        r
      match a.blocks[a.headIdx]? with
      | some hb =>
        if p + old_size = hb.base + hb.used then
          let diff := new_size - old_size
          if hb.used + diff ≤ hb.capacity then
            (some p,
             { a with
                 blocks := a.blocks.set a.headIdx { hb with used := hb.used + diff },
                 total_alloc := a.total_alloc + diff }, [])
          else relocate
        else relocate
      | none => relocate

/-- One arena operation of a trace; the Bool is the success of the backend
allocation, consulted only when the operation reaches the Z_MALLOC call. -/
inductive AOp where
  | alloc (size : Nat) (ok : Bool)
  | allocAlign (size align : Nat) (ok : Bool)
  | allocZero (size : Nat) (ok : Bool)
  | arealloc (old : Option Nat) (old_size new_size : Nat) (ok : Bool)
  | reset
deriving Repr, DecidableEq

/-- Whether an operation is the reset operation. -/
def AOp.isReset : AOp → Bool
  | .reset => true
  | _ => false

/-- Whether an operation is a realloc operation. -/
def AOp.isRealloc : AOp → Bool
  | .arealloc _ _ _ _ => true
  | _ => false

/-- Run one arena operation, returning the served address (none for reset). -/
def zarena_step (a : Zarena) : AOp → Option Nat × Zarena
  | .alloc s ok => ((zarena_alloc a s ok).1, (zarena_alloc a s ok).2.1)
  | .allocAlign s al ok =>
      ((zarena_alloc_align a s al ok).1, (zarena_alloc_align a s al ok).2.1)
  | .allocZero s ok => ((zarena_alloc_zero a s ok).1, (zarena_alloc_zero a s ok).2.1)
  | .arealloc old os ns ok =>
      ((zarena_realloc a old os ns ok).1, (zarena_realloc a old os ns ok).2.1)
  | .reset => (none, zarena_reset a)

/-- Run a trace of arena operations, collecting the returned addresses. -/
def zarena_run (a : Zarena) : List AOp → List (Option Nat) × Zarena
  | [] => ([], a)
  | op :: t =>
    let r := zarena_step a op
    let rest := zarena_run r.2 t
    (r.1 :: rest.1, rest.2)

/-- Run a sequence of zarena_alloc_align requests (size, align), with the
backend always succeeding, pairing each result with its request. -/
def zarena_alloc_align_seq (a : Zarena) :
    List (Nat × Nat) → List (Option Nat × Nat × Nat) × Zarena
  | [] => ([], a)
  | (s, al) :: t =>
    let r := zarena_alloc_align a s al true
    let rest := zarena_alloc_align_seq r.2.1 t
    ((r.1, s, al) :: rest.1, rest.2)

/-- The address regions of the successful results of a request sequence:
(address, size) pairs. -/
def regionsOf (rs : List (Option Nat × Nat × Nat)) : List (Nat × Nat) :=
  rs.filterMap (fun e => e.1.map (fun p => (p, e.2.1)))

/-- Two address regions (address, size) are disjoint. -/
def regDisj (x y : Nat × Nat) : Prop := x.1 + x.2 ≤ y.1 ∨ y.1 + y.2 ≤ x.1

/-- A Bool-valued non-decreasing test on a list of naturals. -/
def nondecreasing : List Nat → Bool
  | [] => true
  | [_] => true
  | a :: b :: t => decide (a ≤ b) && nondecreasing (b :: t)

/-- The running counter the amended claim C4 describes: fold over the trace
paired with the observed results, adding the requested size of every
successful allocation and restarting from zero at every reset.  Realloc
operations are outside the scope of the amended claim. -/
def ledgerStep (acc : Nat) : AOp × Option Nat → Nat
  | (.reset, _) => 0
  | (.alloc s _, some _) => acc + s
  | (.allocAlign s _ _, some _) => acc + s
  | (.allocZero s _, some _) => acc + s
  | (_, _) => acc

/-- Ledger over a results-annotated trace, starting from acc. -/
def ledgerFrom (acc : Nat) (l : List (AOp × Option Nat)) : Nat :=
  l.foldl ledgerStep acc

/-- The number of live requested payload bytes as claim C4 reads, computed
from a trace annotated with the observed results (spec-side accounting, an
integer because a shrinking realloc decreases it): a successful allocation
adds its size, a successful realloc of a non-null pointer to a non-zero size
replaces the old live size by the new one (so it adds new_size - old_size,
whether it extended in place or relocated and abandoned the old region), and
reset drops everything. -/
def specLiveStep (acc : Int) : AOp × Option Nat → Int
  | (.reset, _) => 0
  | (.alloc s _, some _) => acc + s
  | (.allocAlign s _ _, some _) => acc + s
  | (.allocZero s _, some _) => acc + s
  | (.arealloc none _ ns _, some _) => acc + ns
  | (.arealloc (some _) os ns _, some _) => acc + (ns : Int) - (os : Int)
  | (_, _) => acc

/-- Spec-side live byte count of a results-annotated trace. -/
def specLiveBytes (l : List (AOp × Option Nat)) : Int :=
  l.foldl specLiveStep 0

/-- Pointer-size alignment used by zpool_init (sizeof(void*)). -/
def ptrAlign : Nat := 8

/-- The pool.  blocks is the slab base-pointer array (block_count is its
length), mem the intrusive free-list links written into slab memory
(address of a node to the value of its next field). -/
structure Zpool where
  item_size : Nat
  count_per_block : Nat
  head : Option Nat
  blocks : List Nat
  block_cap : Nat
  mem : List (Nat × Option Nat)
deriving Repr, DecidableEq

/-- zpool_init: round the item size up to pointer alignment and to at least
the size of a free-list node, default the per-slab count. -/
def zpool_init (item_size items_per_block : Nat) : Zpool :=
  let isz := if item_size < ptrAlign then ptrAlign else item_size
  { item_size := (isz + (ptrAlign - 1)) - (isz + (ptrAlign - 1)) % ptrAlign,
    count_per_block := if items_per_block < 1 then 64 else items_per_block,
    head := none, blocks := [], block_cap := 0, mem := [] }

/-- The free-list links zpool_grow writes into a fresh slab: item i points
to item i + 1, the last item points to the previous free-list head.
Mirrors the loop over i < count_per_block - 1 plus the last assignment
(zpool_init guarantees cnt is at least 1). -/
def slabLinks (block isz cnt : Nat) (old : Option Nat) : List (Nat × Option Nat) :=
  (List.range (cnt - 1)).map (fun i => (block + i * isz, some (block + (i + 1) * isz)))
    ++ [(block + (cnt - 1) * isz, old)]

/-- zpool_grow.  bk is the backend bump pointer, okSlab the success of the
Z_MALLOC for the slab, okArr the success of the Z_REALLOC growing the slab
tracking array (consulted only when that growth is needed). -/
def zpool_grow (p : Zpool) (bk : Nat) (okSlab okArr : Bool) :
    Zpool × Nat × List BackendCall :=
  let bmsz := p.item_size * p.count_per_block
  if okSlab then
    let block := bk
    let bk1 := bk + bmsz
    if p.blocks.length = p.block_cap then
      let new_cap := if p.block_cap = 0 then 8 else p.block_cap * 2
      if okArr then
        ({ p with
             blocks := p.blocks ++ [block],
             block_cap := new_cap,
             mem := slabLinks block p.item_size p.count_per_block p.head ++ p.mem,
             head := some block }, bk1,
         [BackendCall.injAlloc bmsz, BackendCall.injRealloc (new_cap * ptrAlign)])
      else
        (p, bk1,
         [BackendCall.injAlloc bmsz, BackendCall.injRealloc (new_cap * ptrAlign),
          BackendCall.injFree block])
    else
      ({ p with
           blocks := p.blocks ++ [block],
           mem := slabLinks block p.item_size p.count_per_block p.head ++ p.mem,
           head := some block }, bk1,
       [BackendCall.injAlloc bmsz])
  else (p, bk, [BackendCall.injAlloc bmsz])

/-- zpool_alloc: pop the free-list head, growing by one slab when empty. -/
def zpool_alloc (p : Zpool) (bk : Nat) (okSlab okArr : Bool) :
    Option Nat × Zpool × Nat × List BackendCall :=
  match p.head with
  | some node =>
      (some node, { p with head := (alookup p.mem node).join }, bk, [])
  | none =>
    let g := zpool_grow p bk okSlab okArr
    match g.1.head with
    | none => (none, g.1, g.2.1, g.2.2)
    | some node =>
        (some node, { g.1 with head := (alookup g.1.mem node).join }, g.2.1, g.2.2)

/-- zpool_recycle: push the pointer onto the free list (NULL is a no-op). -/
def zpool_recycle (p : Zpool) (ptr : Option Nat) : Zpool :=
  match ptr with
  | none => p
  | some n => { p with mem := (n, p.head) :: p.mem, head := some n }

/-- zpool_free: release every slab through Z_FREE in index order, then the
slab-tracking array itself when it was ever allocated (the blocks pointer
is non-null exactly when block_cap is non-zero), then zero the struct.
The model does not track the tracking array's own address inside Zpool, so
it is passed as the parameter arr; mem models heap words, not the struct,
and is left as is. -/
def zpool_free (p : Zpool) (arr : Nat) : Zpool × List BackendCall :=
  ({ item_size := 0, count_per_block := 0, head := none, blocks := [],
     block_cap := 0, mem := p.mem },
   p.blocks.map BackendCall.injFree ++
     (if p.block_cap = 0 then [] else [BackendCall.injFree arr]))

/-- ZDEBUG_MAGIC_ALIVE. -/
def ZDEBUG_MAGIC_ALIVE : Nat := 0x11223344

/-- ZDEBUG_MAGIC_FREED. -/
def ZDEBUG_MAGIC_FREED : Nat := 0xDEADDEAD

/-- ZDEBUG_CANARY_VAL. -/
def ZDEBUG_CANARY_VAL : Nat := 0xBB

/-- ZDEBUG_CANARY_SIZE. -/
def ZDEBUG_CANARY_SIZE : Nat := 16

/-- sizeof(zdebug_header) on a 64-bit target (prev, next, file, size,
line + magic). -/
def hdrG : Nat := 40

/-- Byte value the model uses for indeterminate memory handed out by the
backend (real malloc memory is uninitialized). -/
def junkByte : Nat := 0xAA

/-- Width of size_t on the modelled 64-bit target. -/
def SIZET_BITS : Nat := 64

/-- One debug-guard allocation as it sits in memory: the header fields of
struct zdebug_header (prev and next hold the keyed address of the neighbour
header, none for NULL) followed by the payload bytes and the canary bytes. -/
structure GAlloc where
  prev : Option Nat
  next : Option Nat
  file : String
  size : Nat
  line : Int
  magic : Nat
  payload : List Nat
  canary : List Nat
deriving Repr, DecidableEq

/-- The debug-guard global state: the modelled process memory (address of a
header, keyed by the user pointer that follows it, to its contents), the
global list head g_zdebug_head, and the backend bump pointer. -/
structure GState where
  store : List (Nat × GAlloc)
  ghead : Option Nat
  nextAddr : Nat
deriving Repr, DecidableEq

/-- The initial debug-guard state: no allocations, null list head. -/
def gstate0 : GState := { store := [], ghead := none, nextAddr := 0 }

/-- A diagnostic the guard emits right before abort().  The constructors
that identify the original allocation site carry its file and line. -/
inductive GDiag where
  | doubleFree (file : String) (line : Int)
  | invalidFree
  | overflowFree (file : String) (line : Int)
  | badRealloc
  | corruptRealloc (file : String) (line : Int)
deriving Repr, DecidableEq

/-- zdebug_check_canary: every canary byte equals the sentinel value. -/
def canaryOkB (al : GAlloc) : Bool :=
  al.canary = List.replicate ZDEBUG_CANARY_SIZE ZDEBUG_CANARY_VAL

/-- zdebug_add: link a header at the front of the live list.  Mirrors
h.next := g_zdebug_head; h.prev := NULL; if g_zdebug_head then
g_zdebug_head.prev := h; g_zdebug_head := h. -/
def gAdd (s : List (Nat × GAlloc)) (g : Option Nat) (p : Nat) :
    List (Nat × GAlloc) × Option Nat :=
  let s1 := aupd s p (fun al => { al with next := g, prev := none })
  let s2 :=
    match g with
    | some g0 => aupd s1 g0 (fun al => { al with prev := some p })
    | none => s1
  (s2, some p)

/-- zdebug_remove: unlink a header from the live list.  Mirrors
if h.prev then h.prev.next := h.next else g_zdebug_head := h.next;
if h.next then h.next.prev := h.prev. -/
def gRemove (s : List (Nat × GAlloc)) (g : Option Nat) (p : Nat) :
    List (Nat × GAlloc) × Option Nat :=
  match alookup s p with
  | none => (s, g)
  | some h =>
    let s1 :=
      match h.prev with
      | some q => aupd s q (fun al => { al with next := h.next })
      | none => s
    let g1 :=
      match h.prev with
      | some _ => g
      | none => h.next
    let s2 :=
      match h.next with
      | some r => aupd s1 r (fun al => { al with prev := h.prev })
      | none => s1
    (s2, g1)

/-- zdebug_malloc_loc.  ok is the success of the backend malloc call.  The
fresh header is placed at the backend bump pointer; the user pointer (the
store key) is hdrG bytes past it.  Payload bytes start out indeterminate. -/
def zdebug_malloc_loc (st : GState) (size : Nat) (file : String) (line : Int)
    (ok : Bool) : Option Nat × GState × List BackendCall :=
  if size = 0 then (none, st, [])
  else
    let total := hdrG + size + ZDEBUG_CANARY_SIZE
    if ok then
      let p := st.nextAddr + hdrG
      let al : GAlloc :=
        { prev := none, next := none, file := file, size := size, line := line,
          magic := ZDEBUG_MAGIC_ALIVE,
          payload := List.replicate size junkByte,
          canary := List.replicate ZDEBUG_CANARY_SIZE ZDEBUG_CANARY_VAL }
      let g := gAdd ((p, al) :: st.store) st.ghead p
      (some p,
       { store := g.1, ghead := g.2, nextAddr := st.nextAddr + total },
       [BackendCall.stdAlloc total])
    else (none, st, [BackendCall.stdAlloc total])

/-- zdebug_calloc_loc: malloc of count * size (the C size_t multiplication,
wrapping modulo 2 ^ 64, with no overflow check), then memset of that same
wrapped number of bytes to zero. -/
def zdebug_calloc_loc (st : GState) (count size : Nat) (file : String)
    (line : Int) (ok : Bool) : Option Nat × GState × List BackendCall :=
  let n := (count * size) % 2 ^ SIZET_BITS
  let r := zdebug_malloc_loc st n file line ok
  match r.1 with
  | some p =>
      (some p,
       { r.2.1 with store := aupd r.2.1.store p (fun al => { al with payload := List.replicate n 0 }) },
       r.2.2)
  | none => (none, r.2.1, r.2.2)

/-- zdebug_free.  A null pointer is a no-op.  A pointer whose header is not
in the modelled memory is treated as carrying an unknown magic value (in C
this read is undefined; any value other than the two magic tags takes the
invalid-free path).  On success the magic is flipped to FREED, the header is
unlinked and the backend memory released; the model keeps the freed record
in the store because the bump backend never reuses the memory. -/
def zdebug_free (st : GState) (ptr : Option Nat) :
    Except GDiag (GState × List BackendCall) :=
  match ptr with
  | none => .ok (st, [])
  | some p =>
    match alookup st.store p with
    | none => .error .invalidFree
    | some h =>
      if h.magic ≠ ZDEBUG_MAGIC_ALIVE then
        if h.magic = ZDEBUG_MAGIC_FREED then .error (.doubleFree h.file h.line)
        else .error .invalidFree
      else if ¬ canaryOkB h then .error (.overflowFree h.file h.line)
      else
        let s0 := aupd st.store p (fun al => { al with magic := ZDEBUG_MAGIC_FREED })
        let g := gRemove s0 st.ghead p
        .ok ({ st with store := g.1, ghead := g.2 },
             [BackendCall.stdFree (p - hdrG)])

/-- Grow or shrink a payload the way realloc does: the first min(old, new)
bytes are preserved, any extension is indeterminate. -/
def reallocPayload (old : List Nat) (oldSize newSize : Nat) : List Nat :=
  old.take newSize ++ List.replicate (newSize - oldSize) junkByte

/-- zdebug_realloc_loc.  ok is the success of the backend realloc; moved
says whether a successful backend realloc returned a new address (the model
then places the block at the bump pointer and the old header memory is
gone). -/
def zdebug_realloc_loc (st : GState) (ptr : Option Nat) (size : Nat)
    (file : String) (line : Int) (ok moved : Bool) :
    Except GDiag (Option Nat × GState × List BackendCall) :=
  match ptr with
  | none =>
    let r := zdebug_malloc_loc st size file line ok
    .ok (r.1, r.2.1, r.2.2)
  | some p =>
    if size = 0 then
      match zdebug_free st (some p) with
      | .error d => .error d
      | .ok r => .ok (none, r.1, r.2)
    else
      match alookup st.store p with
      | none => .error .badRealloc
      | some h =>
        if h.magic ≠ ZDEBUG_MAGIC_ALIVE then .error .badRealloc
        else if ¬ canaryOkB h then .error (.corruptRealloc h.file h.line)
        else
          let rm := gRemove st.store st.ghead p
          let total := hdrG + size + ZDEBUG_CANARY_SIZE
          if ok then
            if moved then
              let q := st.nextAddr + hdrG
              let h2 : GAlloc :=
                { h with size := size, file := file, line := line,
                         payload := reallocPayload h.payload h.size size,
                         canary := List.replicate ZDEBUG_CANARY_SIZE ZDEBUG_CANARY_VAL }
              let g := gAdd ((q, h2) :: aremove rm.1 p) rm.2 q
              .ok (some q,
                   { store := g.1, ghead := g.2, nextAddr := st.nextAddr + total },
                   [BackendCall.stdRealloc total])
            else
              let s2 := aupd rm.1 p (fun al =>
                { al with size := size, file := file, line := line,
                          payload := reallocPayload al.payload al.size size,
                          canary := List.replicate ZDEBUG_CANARY_SIZE ZDEBUG_CANARY_VAL })
              let g := gAdd s2 rm.2 p
              .ok (some p,
                   { st with store := g.1, ghead := g.2 },
                   [BackendCall.stdRealloc total])
          else
            let g := gAdd rm.1 rm.2 p
            .ok (none,
                 { st with store := g.1, ghead := g.2 },
                 [BackendCall.stdRealloc total])

/-- One debug-guard operation of a trace. -/
inductive GOp where
  | gmalloc (size : Nat) (file : String) (line : Int) (ok : Bool)
  | gcalloc (count size : Nat) (file : String) (line : Int) (ok : Bool)
  | grealloc (ptr : Option Nat) (size : Nat) (file : String) (line : Int)
      (ok moved : Bool)
  | gfree (ptr : Option Nat)
deriving Repr, DecidableEq

/-- Run one debug-guard operation; an abort surfaces as an error. -/
def gstep (st : GState) : GOp → Except GDiag GState
  | .gmalloc s f l ok => .ok (zdebug_malloc_loc st s f l ok).2.1
  | .gcalloc c s f l ok => .ok (zdebug_calloc_loc st c s f l ok).2.1
  | .grealloc p s f l ok mv =>
      match zdebug_realloc_loc st p s f l ok mv with
      | .error d => .error d
      | .ok r => .ok r.2.1
  | .gfree p =>
      match zdebug_free st p with
      | .error d => .error d
      | .ok r => .ok r.1

/-- Run a trace of debug-guard operations. -/
def grun : List GOp → GState → Except GDiag GState
  | [], st => .ok st
  | op :: t, st =>
    match gstep st op with
    | .error d => .error d
    | .ok st1 => grun t st1

/-- Walk the live list from a given head following next links, with fuel. -/
def walkLen (s : List (Nat × GAlloc)) : Nat → Option Nat → Nat
  | 0, _ => 0
  | _, none => 0
  | fuel + 1, some a =>
    match alookup s a with
    | none => 0
    | some al => 1 + walkLen s fuel al.next

/-- zdebug_print_leaks: walk the live list and return the number of live
allocations (the logging itself is outside the model). -/
def zdebug_print_leaks (st : GState) : Nat :=
  walkLen st.store st.store.length st.ghead

/-- The live list as a checkable chain: chainOkB s prev cur l holds when
walking from cur with expected back pointer prev visits exactly the
addresses of l, every visited header has its prev field equal to the
preceding header (NULL for the first) and the last header has next NULL. -/
def chainOkB (s : List (Nat × GAlloc)) : Option Nat → Option Nat → List Nat → Bool
  | _, cur, [] => cur = none
  | prev, cur, a :: t =>
    cur = some a &&
      match alookup s a with
      | none => false
      | some al => al.prev = prev && chainOkB s (some a) al.next t

/-- The well-formedness invariant of the debug-guard state, relative to an
explicit list of live addresses: the pointer structure rooted at the global
head is the doubly-linked list of exactly those addresses, the addresses are
distinct, a stored header is ALIVE exactly when it is a member, store keys
are distinct and all below the backend bump pointer. -/
def GoodW (st : GState) (l : List Nat) : Prop :=
  chainOkB st.store none st.ghead l = true ∧
  l.Nodup ∧
  (∀ pr ∈ st.store, ((pr : Nat × GAlloc).2.magic = ZDEBUG_MAGIC_ALIVE ↔ pr.1 ∈ l)) ∧
  (st.store.map Prod.fst).Nodup ∧
  (∀ pr ∈ st.store, (pr : Nat × GAlloc).1 < st.nextAddr)

/-- Head-is-last: in a run without reset the head block is the last block of
the chain (and an empty arena has headIdx 0). -/
def arenaHeadLast (a : Zarena) : Prop :=
  (a.blocks = [] → a.headIdx = 0) ∧ (a.blocks ≠ [] → a.headIdx + 1 = a.blocks.length)

/-- The invariant behind claim C1 on a freshly initialized arena: the head
is the last block, its cursor is within capacity and its data buffer ends at
or before the backend bump pointer. -/
def AInv (a : Zarena) : Prop :=
  arenaHeadLast a ∧
  ∀ hb, a.blocks[a.headIdx]? = some hb →
    hb.used ≤ hb.capacity ∧ hb.base + hb.capacity ≤ a.nextAddr

/-- The watermark: every address handed out so far lies strictly below it.
It is the end of the used part of the head block, or the bump pointer for an
empty arena. -/
def wm (a : Zarena) : Nat :=
  match a.blocks[a.headIdx]? with
  | some hb => hb.base + hb.used
  | none => a.nextAddr

/-- The link fields (prev, next) of a header lookup result; two stores agree
on the linkage of an address when this projection agrees. -/
def links (x : Option GAlloc) : Option (Option Nat × Option Nat) :=
  x.map (fun al => (al.prev, al.next))

/-! General lemmas about alignment and association lists. -/

theorem alignPtr_mod (p a : Nat) (h : 0 < a) : alignPtr p a % a = 0 := by
  unfold alignPtr
  have hd := Nat.div_add_mod (p + (a - 1)) a
  have : p + (a - 1) - (p + (a - 1)) % a = a * ((p + (a - 1)) / a) := by omega
  rw [this]
  exact Nat.mul_mod_right a _

theorem le_alignPtr (p a : Nat) (h : 0 < a) : p ≤ alignPtr p a := by
  unfold alignPtr
  have hm : (p + (a - 1)) % a < a := Nat.mod_lt _ h
  omega

theorem alignPtr_lt (p a : Nat) (h : 0 < a) : alignPtr p a < p + a := by
  unfold alignPtr
  omega

theorem alookup_mem {β : Type} {s : List (Nat × β)} {a : Nat} {v : β}
    (h : alookup s a = some v) : (a, v) ∈ s := by
  induction s with
  | nil => simp [alookup] at h
  | cons hd t ih =>
    obtain ⟨k, w⟩ := hd
    by_cases hk : k = a
    · subst hk
      simp [alookup] at h
      simp [h]
    · simp [alookup, hk] at h
      exact List.mem_cons_of_mem _ (ih h)

theorem alookup_mem_keys {β : Type} {s : List (Nat × β)} {a : Nat} {v : β}
    (h : alookup s a = some v) : a ∈ s.map Prod.fst := by
  have := alookup_mem h
  exact List.mem_map.mpr ⟨(a, v), this, rfl⟩

theorem alookup_eq_none {β : Type} {s : List (Nat × β)} {a : Nat}
    (h : a ∉ s.map Prod.fst) : alookup s a = none := by
  induction s with
  | nil => rfl
  | cons hd t ih =>
    obtain ⟨k, w⟩ := hd
    have hk : k ≠ a := by
      intro he
      exact h (by simp [he])
    have ht : a ∉ t.map Prod.fst := by
      intro he
      exact h (by simp [he])
    simp [alookup, hk]
    exact ih ht

theorem alookup_of_mem_nodup {β : Type} {s : List (Nat × β)} {a : Nat} {v : β}
    (hnd : (s.map Prod.fst).Nodup) (h : (a, v) ∈ s) : alookup s a = some v := by
  induction s with
  | nil => simp at h
  | cons hd t ih =>
    obtain ⟨k, w⟩ := hd
    simp only [List.map_cons] at hnd
    obtain ⟨hk1, hk2⟩ := List.nodup_cons.mp hnd
    rcases List.mem_cons.mp h with h1 | h1
    · cases h1
      simp [alookup]
    · have hka : k ≠ a := by
        intro hk
        subst hk
        exact hk1 (List.mem_map.mpr ⟨(k, v), h1, rfl⟩)
      simp [alookup, hka]
      exact ih hk2 h1

theorem alookup_aupd_self {β : Type} (s : List (Nat × β)) (a : Nat) (f : β → β) :
    alookup (aupd s a f) a = (alookup s a).map f := by
  induction s with
  | nil => rfl
  | cons hd t ih =>
    obtain ⟨k, w⟩ := hd
    by_cases hk : k = a
    · subst hk
      simp [alookup, aupd]
    · simp [alookup, aupd, hk, ih]

theorem alookup_aupd_ne {β : Type} (s : List (Nat × β)) (a b : Nat) (f : β → β)
    (h : b ≠ a) : alookup (aupd s a f) b = alookup s b := by
  induction s with
  | nil => rfl
  | cons hd t ih =>
    obtain ⟨k, w⟩ := hd
    by_cases hk : k = a
    · subst hk
      simp [alookup, aupd, Ne.symm h]
    · by_cases hkb : k = b
      · subst hkb
        simp [alookup, aupd, hk]
      · simp [alookup, aupd, hk, hkb, ih]

theorem keys_aupd {β : Type} (s : List (Nat × β)) (a : Nat) (f : β → β) :
    (aupd s a f).map Prod.fst = s.map Prod.fst := by
  induction s with
  | nil => rfl
  | cons hd t ih =>
    obtain ⟨k, w⟩ := hd
    by_cases hk : k = a
    · subst hk
      simp [aupd]
    · simp [aupd, hk, ih]

theorem mem_aupd_elim {β : Type} {s : List (Nat × β)} {a : Nat} {f : β → β}
    {pr : Nat × β} (h : pr ∈ aupd s a f) :
    pr ∈ s ∨ ∃ v, (a, v) ∈ s ∧ pr = (a, f v) := by
  induction s with
  | nil => simp [aupd] at h
  | cons hd t ih =>
    obtain ⟨k, w⟩ := hd
    by_cases hk : k = a
    · subst hk
      simp [aupd] at h
      rcases h with h | h
      · exact Or.inr ⟨w, by simp, h⟩
      · exact Or.inl (List.mem_cons_of_mem _ h)
    · simp [aupd, hk] at h
      rcases h with h | h
      · exact Or.inl (by simp [h])
      · rcases ih h with h1 | ⟨v, hv, he⟩
        · exact Or.inl (List.mem_cons_of_mem _ h1)
        · exact Or.inr ⟨v, List.mem_cons_of_mem _ hv, he⟩

theorem alookup_aremove_self {β : Type} (s : List (Nat × β)) (a : Nat) :
    alookup (aremove s a) a = none := by
  apply alookup_eq_none
  intro h
  rcases List.mem_map.mp h with ⟨pr, hpr, he⟩
  have := List.mem_filter.mp hpr
  simp at this
  exact this.2 he

theorem alookup_aremove_ne {β : Type} (s : List (Nat × β)) (a b : Nat)
    (h : b ≠ a) : alookup (aremove s a) b = alookup s b := by
  induction s with
  | nil => rfl
  | cons hd t ih =>
    obtain ⟨k, w⟩ := hd
    by_cases hk : k = a
    · subst hk
      simp [aremove, alookup, List.filter, Ne.symm h] at *
      exact ih
    · by_cases hkb : k = b
      · subst hkb
        simp [aremove, alookup, List.filter, hk]
      · simp [aremove, alookup, List.filter, hk, hkb] at *
        exact ih

theorem mem_aremove_elim {β : Type} {s : List (Nat × β)} {a : Nat}
    {pr : Nat × β} (h : pr ∈ aremove s a) : pr ∈ s ∧ pr.1 ≠ a := by
  have := List.mem_filter.mp h
  simpa using this

theorem keys_aremove_sublist {β : Type} (s : List (Nat × β)) (a : Nat) :
    ((aremove s a).map Prod.fst).Sublist (s.map Prod.fst) :=
  List.Sublist.map _ (List.filter_sublist s)

/-! Claim C1: the arena bump-allocation machinery. -/

theorem headIdx_lt_of_head {a : Zarena} {hb : ZarenaBlock}
    (hh : a.blocks[a.headIdx]? = some hb) : a.headIdx < a.blocks.length := by
  by_contra h
  rw [List.getElem?_eq_none_iff.mpr (Nat.le_of_not_lt h)] at hh
  exact Option.noConfusion hh

theorem blocks_ne_of_head {a : Zarena} {hb : ZarenaBlock}
    (hh : a.blocks[a.headIdx]? = some hb) : a.blocks ≠ [] := by
  intro he
  rw [he] at hh
  simp at hh

theorem blocks_empty_of_no_head {a : Zarena} (hinv : AInv a)
    (hh : a.blocks[a.headIdx]? = none) : a.blocks = [] := by
  by_contra h
  have hl := hinv.1.2 h
  have : a.headIdx < a.blocks.length := by omega
  rw [List.getElem?_eq_none_iff] at hh
  omega

theorem wm_le_nextAddr {a : Zarena} (hinv : AInv a) : wm a ≤ a.nextAddr := by
  unfold wm
  cases hh : a.blocks[a.headIdx]? with
  | none => exact le_refl _
  | some hb =>
    dsimp only
    have := hinv.2 hb hh
    omega

theorem zarena_grow_c1 (a : Zarena) (s al : Nat) (hs : 0 < s) (hal : 0 < al)
    (hinv : AInv a) :
    ∃ p a2 ev, zarena_grow a s al true = (some p, a2, ev) ∧ AInv a2 ∧
      p % al = 0 ∧ wm a ≤ p ∧ p + s = wm a2 := by
  have hwm := wm_le_nextAddr hinv
  have hb1 : a.nextAddr + hdrA ≤ alignPtr (a.nextAddr + hdrA) al := le_alignPtr _ _ hal
  have hb2 : alignPtr (a.nextAddr + hdrA) al < a.nextAddr + hdrA + al := alignPtr_lt _ _ hal
  have hmod : alignPtr (a.nextAddr + hdrA) al % al = 0 := alignPtr_mod _ _ hal
  unfold zarena_grow
  cases hh : a.blocks[a.headIdx]? with
  | none =>
    have hbl : a.blocks = [] := blocks_empty_of_no_head hinv hh
    have hcap : s + al ≤ if ZARENA_DEFAULT_BLOCK_SIZE < s + al then s + al
        else ZARENA_DEFAULT_BLOCK_SIZE := by
      split <;> omega
    refine ⟨_, _, _, rfl, ?_, hmod, ?_, ?_⟩
    · refine ⟨⟨fun h => by simp at h, fun _ => by simp⟩, ?_⟩
      intro b2 hhb
      rw [List.getElem?_cons_zero] at hhb
      cases hhb
      dsimp only
      omega
    · unfold wm
      rw [hh]
      dsimp only
      omega
    · unfold wm
      rw [List.getElem?_cons_zero]
      dsimp only
      omega
  | some hb =>
    have hlt := headIdx_lt_of_head hh
    have hne := blocks_ne_of_head hh
    have hlast := hinv.1.2 hne
    have hcapb := hinv.2 hb hh
    have hcap : s + al ≤ if hb.capacity * 2 < s + al then s + al
        else hb.capacity * 2 := by
      split <;> omega
    have htake : a.blocks.take (a.headIdx + 1) = a.blocks := by
      rw [hlast]
      exact List.take_length a.blocks
    have hdrop : a.blocks.drop (a.headIdx + 1) = [] := by
      rw [hlast]
      exact List.drop_length a.blocks
    refine ⟨_, _, _, rfl, ?_, hmod, ?_, ?_⟩
    · constructor
      · constructor
        · intro h
          rw [htake, hdrop] at h
          simp at h
        · intro _
          rw [htake, hdrop]
          simp
          omega
      · intro b2 hhb
        rw [htake, hdrop, hlast, List.getElem?_concat_length] at hhb
        cases hhb
        dsimp only
        constructor
        · omega
        · omega
    · unfold wm
      rw [hh]
      dsimp only
      omega
    · unfold wm
      rw [htake, hdrop, hlast, List.getElem?_concat_length]
      dsimp only
      omega

theorem zarena_alloc_align_c1 (a : Zarena) (s al : Nat) (hs : 0 < s)
    (hal : 0 < al) (hinv : AInv a) :
    ∃ p a2 ev, zarena_alloc_align a s al true = (some p, a2, ev) ∧ AInv a2 ∧
      p % al = 0 ∧ wm a ≤ p ∧ p + s = wm a2 := by
  unfold zarena_alloc_align
  rw [if_neg (Nat.pos_iff_ne_zero.mp hs)]
  cases hh : a.blocks[a.headIdx]? with
  | none => exact zarena_grow_c1 a s al hs hal hinv
  | some hb =>
    have hlt := headIdx_lt_of_head hh
    have hne := blocks_ne_of_head hh
    have hlast := hinv.1.2 hne
    have hcapb := hinv.2 hb hh
    have ha1 : hb.base + hb.used ≤ alignPtr (hb.base + hb.used) al :=
      le_alignPtr _ _ hal
    have ha2 : alignPtr (hb.base + hb.used) al < hb.base + hb.used + al :=
      alignPtr_lt _ _ hal
    have hmod := alignPtr_mod (hb.base + hb.used) al hal
    dsimp only
    split
    · refine ⟨_, _, _, rfl, ?_, hmod, ?_, ?_⟩
      · constructor
        · constructor
          · intro h
            have := congrArg List.length h
            rw [List.length_set] at this
            simp at this
            exact absurd this hne
          · intro _
            rw [List.length_set]
            exact hlast
        · intro b2 hhb
          rw [List.getElem?_set_self hlt] at hhb
          cases hhb
          dsimp only
          omega
      · unfold wm
        rw [hh]
        dsimp only
        omega
      · unfold wm
        rw [List.getElem?_set_self hlt]
        dsimp only
        omega
    · have hnone : a.blocks[a.headIdx + 1]? = none :=
        List.getElem?_eq_none_iff.mpr (by omega)
      rw [hnone]
      exact zarena_grow_c1 a s al hs hal hinv

theorem zarena_alloc_align_seq_c1 (reqs : List (Nat × Nat)) :
    ∀ a : Zarena, AInv a → (∀ r ∈ reqs, 0 < r.1 ∧ 0 < r.2) →
      AInv (zarena_alloc_align_seq a reqs).2 ∧
      wm a ≤ wm (zarena_alloc_align_seq a reqs).2 ∧
      (∀ e ∈ (zarena_alloc_align_seq a reqs).1, ∃ p, e.1 = some p ∧ p % e.2.2 = 0) ∧
      (∀ r ∈ regionsOf (zarena_alloc_align_seq a reqs).1,
        wm a ≤ r.1 ∧ r.1 + r.2 ≤ wm (zarena_alloc_align_seq a reqs).2) ∧
      List.Pairwise regDisj (regionsOf (zarena_alloc_align_seq a reqs).1) := by
  induction reqs with
  | nil =>
    intro a hinv _
    refine ⟨hinv, le_refl _, ?_, ?_, ?_⟩ <;> simp [zarena_alloc_align_seq, regionsOf]
  | cons rq t ih =>
    intro a hinv hall
    obtain ⟨s, al⟩ := rq
    have hs := (hall _ (List.mem_cons_self _ _)).1
    have hal := (hall _ (List.mem_cons_self _ _)).2
    obtain ⟨p, a2, ev, heq, hinv2, hmod, hge, hend⟩ :=
      zarena_alloc_align_c1 a s al hs hal hinv
    have htail : ∀ r ∈ t, 0 < r.1 ∧ 0 < r.2 := by
      intro r hr
      exact hall r (List.mem_cons_of_mem _ hr)
    simp only [zarena_alloc_align_seq, heq]
    obtain ⟨ih1, ih2, ih3, ih4, ih5⟩ := ih a2 hinv2 htail
    refine ⟨ih1, by omega, ?_, ?_, ?_⟩
    · intro e he
      rcases List.mem_cons.mp he with rfl | he
      · exact ⟨p, rfl, hmod⟩
      · exact ih3 e he
    · intro r hr
      simp only [regionsOf, List.filterMap_cons, Option.map_some] at hr
      rcases List.mem_cons.mp hr with rfl | hr
      · refine ⟨?_, ?_⟩ <;> dsimp only <;> omega
      · have := ih4 r hr
        constructor
        · omega
        · exact this.2
    · simp only [regionsOf, List.filterMap_cons, Option.map_some, List.pairwise_cons]
      constructor
      · intro r hr
        have := ih4 r hr
        left
        dsimp only
        unfold regionsOf at this
        omega
      · exact ih5

/-- C1: for every sequence of zarena_alloc_align(s, a) requests on a freshly
initialized arena, with every size positive, every alignment a power of two
and the backend never failing, every call returns a non-null address that is
a multiple of its alignment, and the returned regions are pairwise
disjoint. -/
theorem zarena_alloc_align_aligned_disjoint (reqs : List (Nat × Nat))
    (hpos : ∀ r ∈ reqs, 0 < r.1) (hpow : ∀ r ∈ reqs, ∃ k, r.2 = 2 ^ k) :
    (∀ e ∈ (zarena_alloc_align_seq zarena_empty reqs).1,
       ∃ p, e.1 = some p ∧ p % e.2.2 = 0) ∧
    List.Pairwise regDisj (regionsOf (zarena_alloc_align_seq zarena_empty reqs).1) := by
  have hall : ∀ r ∈ reqs, 0 < r.1 ∧ 0 < r.2 := by
    intro r hr
    refine ⟨hpos r hr, ?_⟩
    obtain ⟨k, hk⟩ := hpow r hr
    rw [hk]
    exact Nat.pos_pow_of_pos k (by norm_num)
  have hinv0 : AInv zarena_empty := by
    refine ⟨⟨fun _ => rfl, fun h => absurd rfl h⟩, ?_⟩
    intro hb hhb
    simp [zarena_empty] at hhb
  obtain ⟨h1, h2, h3, h4, h5⟩ := zarena_alloc_align_seq_c1 reqs zarena_empty hinv0 hall
  exact ⟨h3, h5⟩

/-- Witness for C1 at a concrete request sequence. -/
theorem zarena_alloc_align_aligned_disjoint_witness :
    (∀ e ∈ (zarena_alloc_align_seq zarena_empty [(5, 4), (3, 1), (100, 16)]).1,
       ∃ p, e.1 = some p ∧ p % e.2.2 = 0) ∧
    List.Pairwise regDisj
      (regionsOf (zarena_alloc_align_seq zarena_empty [(5, 4), (3, 1), (100, 16)]).1) :=
  zarena_alloc_align_aligned_disjoint [(5, 4), (3, 1), (100, 16)]
    (by decide)
    (by
      intro r hr
      simp only [List.mem_cons, List.not_mem_nil, or_false] at hr
      rcases hr with rfl | rfl | rfl
      · exact ⟨2, rfl⟩
      · exact ⟨0, rfl⟩
      · exact ⟨4, rfl⟩)

/-! Claim C10: zarena_realloc with new size zero. -/

/-- C10: for every non-null old pointer, zarena_realloc to new size 0
returns a null result, leaves every field of the arena (block chain, head,
total_alloc, backend state) exactly unchanged and makes no backend call. -/
theorem zarena_realloc_zero_new_size (a : Zarena) (p old_size : Nat) (ok : Bool) :
    zarena_realloc a (some p) old_size 0 ok = (none, a, []) := by
  rfl

/-! Claim C3: block capacities along the chain. -/

theorem set_getElem?_self {γ : Type} (l : List γ) (i : Nat) (x : γ)
    (h : l[i]? = some x) : l.set i x = l := by
  induction l generalizing i with
  | nil => rfl
  | cons hd t ih =>
    cases i with
    | zero =>
      rw [List.getElem?_cons_zero] at h
      cases h
      rfl
    | succ j =>
      rw [List.getElem?_cons_succ] at h
      simp only [List.set_cons_succ]
      rw [ih j h]

theorem nondecreasing_append_last (l : List Nat) (c : Nat)
    (h : nondecreasing l = true) (hl : ∀ x ∈ l.getLast?, x ≤ c) :
    nondecreasing (l ++ [c]) = true := by
  induction l with
  | nil => rfl
  | cons a t ih =>
    cases t with
    | nil =>
      have : a ≤ c := hl a rfl
      simp [nondecreasing, this]
    | cons b t2 =>
      rw [nondecreasing] at h
      have h1 := (Bool.and_eq_true _ _).mp h
      have := ih h1.2 (by
        intro x hx
        apply hl
        rw [List.getLast?_cons_cons]
        exact hx)
      simp only [List.cons_append]
      rw [nondecreasing]
      simp only [List.cons_append] at this
      rw [this]
      simp [of_decide_eq_true h1.1]

theorem caps_set_used (bl : List ZarenaBlock) (i : Nat) (hb : ZarenaBlock) (u : Nat)
    (hh : bl[i]? = some hb) :
    (bl.set i { hb with used := u }).map ZarenaBlock.capacity
      = bl.map ZarenaBlock.capacity := by
  rw [List.map_set]
  apply set_getElem?_self
  rw [List.getElem?_map, hh]
  rfl

theorem zarena_grow_caps (a : Zarena) (s al : Nat) (ok : Bool)
    (hinv : arenaHeadLast a ∧
      nondecreasing (a.blocks.map ZarenaBlock.capacity) = true) :
    arenaHeadLast (zarena_grow a s al ok).2.1 ∧
      nondecreasing ((zarena_grow a s al ok).2.1.blocks.map ZarenaBlock.capacity) = true := by
  obtain ⟨⟨hemp, hlast⟩, hcaps⟩ := hinv
  unfold zarena_grow
  cases hh : a.blocks[a.headIdx]? with
  | none =>
    dsimp only
    split
    · refine ⟨⟨?_, ?_⟩, ?_⟩
      · intro h
        simp at h
      · intro _
        simp
      · rfl
    · exact ⟨⟨hemp, hlast⟩, hcaps⟩
  | some hb =>
    have hne := blocks_ne_of_head hh
    have hlt := headIdx_lt_of_head hh
    have hl := hlast hne
    have htake : a.blocks.take (a.headIdx + 1) = a.blocks := by
      rw [hl]
      exact List.take_length a.blocks
    have hdrop : a.blocks.drop (a.headIdx + 1) = [] := by
      rw [hl]
      exact List.drop_length a.blocks
    dsimp only
    split
    · rw [htake, hdrop]
      refine ⟨⟨?_, ?_⟩, ?_⟩
      · intro h
        simp at h
      · intro _
        simp
        omega
      · dsimp only
        simp only [List.map_append, List.map_cons, List.map_nil]
        apply nondecreasing_append_last _ _ hcaps
        intro x hx
        have hgl : (a.blocks.map ZarenaBlock.capacity).getLast? = some hb.capacity := by
          rw [List.getLast?_eq_getElem?, List.getElem?_map, List.length_map]
          rw [show a.blocks.length - 1 = a.headIdx by omega, hh]
          rfl
        rw [hgl] at hx
        simp at hx
        subst hx
        by_cases hlt2 : hb.capacity * 2 < s + al
        · rw [if_pos hlt2]
          omega
        · rw [if_neg hlt2]
          nlinarith [hb.capacity.zero_le]
    · exact ⟨⟨hemp, hlast⟩, hcaps⟩

theorem zarena_alloc_align_caps (a : Zarena) (s al : Nat) (ok : Bool)
    (hinv : arenaHeadLast a ∧
      nondecreasing (a.blocks.map ZarenaBlock.capacity) = true) :
    arenaHeadLast (zarena_alloc_align a s al ok).2.1 ∧
      nondecreasing ((zarena_alloc_align a s al ok).2.1.blocks.map ZarenaBlock.capacity)
        = true := by
  obtain ⟨⟨hemp, hlast⟩, hcaps⟩ := hinv
  unfold zarena_alloc_align
  split
  · exact ⟨⟨hemp, hlast⟩, hcaps⟩
  · cases hh : a.blocks[a.headIdx]? with
    | none => exact zarena_grow_caps a s al ok ⟨⟨hemp, hlast⟩, hcaps⟩
    | some hb =>
      have hne := blocks_ne_of_head hh
      have hlt := headIdx_lt_of_head hh
      have hl := hlast hne
      dsimp only
      split
      · refine ⟨⟨?_, ?_⟩, ?_⟩
        · intro h
          have := congrArg List.length h
          rw [List.length_set] at this
          simp at this
          exact absurd this hne
        · intro _
          rw [List.length_set]
          exact hl
        · dsimp only
          rw [caps_set_used _ _ _ _ hh]
          exact hcaps
      · have hnone : a.blocks[a.headIdx + 1]? = none :=
          List.getElem?_eq_none_iff.mpr (by omega)
        rw [hnone]
        exact zarena_grow_caps a s al ok ⟨⟨hemp, hlast⟩, hcaps⟩

theorem zarena_realloc_caps (a : Zarena) (old : Option Nat) (os ns : Nat) (ok : Bool)
    (hinv : arenaHeadLast a ∧
      nondecreasing (a.blocks.map ZarenaBlock.capacity) = true) :
    arenaHeadLast (zarena_realloc a old os ns ok).2.1 ∧
      nondecreasing ((zarena_realloc a old os ns ok).2.1.blocks.map ZarenaBlock.capacity)
        = true := by
  obtain ⟨⟨hemp, hlast⟩, hcaps⟩ := hinv
  unfold zarena_realloc
  cases old with
  | none => exact zarena_alloc_align_caps a ns ZARENA_MAX_ALIGN ok ⟨⟨hemp, hlast⟩, hcaps⟩
  | some p =>
    dsimp only
    split
    · exact ⟨⟨hemp, hlast⟩, hcaps⟩
    · split
      · exact ⟨⟨hemp, hlast⟩, hcaps⟩
      · cases hh : a.blocks[a.headIdx]? with
        | none => exact zarena_alloc_align_caps a ns ZARENA_MAX_ALIGN ok ⟨⟨hemp, hlast⟩, hcaps⟩
        | some hb =>
          have hne := blocks_ne_of_head hh
          have hlt := headIdx_lt_of_head hh
          have hl := hlast hne
          dsimp only
          split
          · split
            · refine ⟨⟨?_, ?_⟩, ?_⟩
              · intro h
                have := congrArg List.length h
                rw [List.length_set] at this
                simp at this
                exact absurd this hne
              · intro _
                rw [List.length_set]
                exact hl
              · dsimp only
                rw [caps_set_used _ _ _ _ hh]
                exact hcaps
            · exact zarena_alloc_align_caps a ns ZARENA_MAX_ALIGN ok ⟨⟨hemp, hlast⟩, hcaps⟩
          · exact zarena_alloc_align_caps a ns ZARENA_MAX_ALIGN ok ⟨⟨hemp, hlast⟩, hcaps⟩

theorem zarena_step_caps (a : Zarena) (op : AOp) (hop : op.isReset = false)
    (hinv : arenaHeadLast a ∧
      nondecreasing (a.blocks.map ZarenaBlock.capacity) = true) :
    arenaHeadLast (zarena_step a op).2 ∧
      nondecreasing ((zarena_step a op).2.blocks.map ZarenaBlock.capacity) = true := by
  cases op with
  | alloc s ok => exact zarena_alloc_align_caps a s ZARENA_MAX_ALIGN ok hinv
  | allocAlign s al ok => exact zarena_alloc_align_caps a s al ok hinv
  | allocZero s ok => exact zarena_alloc_align_caps a s ZARENA_MAX_ALIGN ok hinv
  | arealloc old os ns ok => exact zarena_realloc_caps a old os ns ok hinv
  | reset => exact absurd hop (by simp [AOp.isReset])

theorem zarena_run_caps (ops : List AOp) :
    ∀ a : Zarena, (∀ op ∈ ops, op.isReset = false) →
      arenaHeadLast a ∧ nondecreasing (a.blocks.map ZarenaBlock.capacity) = true →
      arenaHeadLast (zarena_run a ops).2 ∧
        nondecreasing ((zarena_run a ops).2.blocks.map ZarenaBlock.capacity) = true := by
  induction ops with
  | nil => exact fun a _ h => h
  | cons op t ih =>
    intro a hall hinv
    exact ih _ (fun o ho => hall o (List.mem_cons_of_mem _ ho))
      (zarena_step_caps a op (hall op (List.mem_cons_self _ _)) hinv)

/-- C3 counterexample: the claim as stated fails.  On the trace
alloc 1; alloc 5000; reset; alloc 10000 the third allocation does not fit
the first block (capacity 4096) nor the next one (capacity 8192), so a
fresh block of capacity 10016 is inserted immediately after the head, in
the middle of the chain: the capacities in chain order are
4096, 10016, 8192, which is not non-decreasing. -/
theorem zarena_capacities_not_monotone_after_reset :
    nondecreasing ((zarena_run zarena_empty
      [AOp.alloc 1 true, AOp.alloc 5000 true, AOp.reset, AOp.alloc 10000 true]).2.blocks.map
        ZarenaBlock.capacity) = false := by
  decide

/-- C3 corrected: after every sequence of arena operations that contains no
reset (alloc, alloc_align, alloc_zero, realloc, with arbitrary backend
outcomes) starting from a freshly initialized arena, the block capacities
in chain-insertion order form a non-decreasing sequence.  (A reset followed
by an allocation too large for the next chained block inserts a fresh block
mid-chain and can break monotonicity, as the counterexample shows.) -/
theorem zarena_capacities_monotone_no_reset (ops : List AOp)
    (h : ∀ op ∈ ops, op.isReset = false) :
    nondecreasing ((zarena_run zarena_empty ops).2.blocks.map ZarenaBlock.capacity)
      = true := by
  refine (zarena_run_caps ops zarena_empty h ⟨⟨fun _ => rfl, fun hne => absurd rfl hne⟩, rfl⟩).2

/-- Witness for the corrected C3 at a concrete reset-free trace. -/
theorem zarena_capacities_monotone_no_reset_witness :
    nondecreasing ((zarena_run zarena_empty
      [AOp.alloc 1 true, AOp.alloc 5000 true, AOp.allocAlign 7 8 true,
       AOp.arealloc (some 32) 1 6000 true, AOp.allocZero 9000 false]).2.blocks.map
        ZarenaBlock.capacity) = true :=
  zarena_capacities_monotone_no_reset
    [AOp.alloc 1 true, AOp.alloc 5000 true, AOp.allocAlign 7 8 true,
     AOp.arealloc (some 32) 1 6000 true, AOp.allocZero 9000 false]
    (by decide)

/-! Claim C4: the total_alloc counter. -/

theorem zarena_alloc_align_total (a : Zarena) (s al : Nat) (ok : Bool) :
    (zarena_alloc_align a s al ok).2.1.total_alloc
      = a.total_alloc + (if (zarena_alloc_align a s al ok).1.isSome then s else 0) := by
  unfold zarena_alloc_align zarena_grow
  split
  · simp
  · cases hh : a.blocks[a.headIdx]? with
    | none =>
      dsimp only
      split
      · simp
      · simp
    | some hb =>
      dsimp only
      split
      · simp
      · cases hh2 : a.blocks[a.headIdx + 1]? with
        | some nb =>
          dsimp only
          split
          · simp
          · split
            · simp
            · simp
        | none =>
          dsimp only
          split
          · simp
          · simp

theorem zarena_step_ledger (a : Zarena) (op : AOp) (hop : op.isRealloc = false) :
    (zarena_step a op).2.total_alloc
      = ledgerStep a.total_alloc (op, (zarena_step a op).1) := by
  cases op with
  | alloc s ok =>
    have h := zarena_alloc_align_total a s ZARENA_MAX_ALIGN ok
    dsimp only [zarena_step, zarena_alloc]
    cases hr : (zarena_alloc_align a s ZARENA_MAX_ALIGN ok).1 with
    | none =>
      rw [hr] at h
      simpa [ledgerStep] using h
    | some p =>
      rw [hr] at h
      simpa [ledgerStep] using h
  | allocAlign s al ok =>
    have h := zarena_alloc_align_total a s al ok
    dsimp only [zarena_step]
    cases hr : (zarena_alloc_align a s al ok).1 with
    | none =>
      rw [hr] at h
      simpa [ledgerStep] using h
    | some p =>
      rw [hr] at h
      simpa [ledgerStep] using h
  | allocZero s ok =>
    have h := zarena_alloc_align_total a s ZARENA_MAX_ALIGN ok
    dsimp only [zarena_step, zarena_alloc_zero, zarena_alloc]
    cases hr : (zarena_alloc_align a s ZARENA_MAX_ALIGN ok).1 with
    | none =>
      rw [hr] at h
      simpa [ledgerStep] using h
    | some p =>
      rw [hr] at h
      simpa [ledgerStep] using h
  | arealloc old os ns ok => simp [AOp.isRealloc] at hop
  | reset => simp [zarena_step, zarena_reset, ledgerStep]

theorem zarena_run_ledger (ops : List AOp) :
    ∀ a : Zarena, (∀ op ∈ ops, op.isRealloc = false) →
      (zarena_run a ops).2.total_alloc
        = ledgerFrom a.total_alloc (ops.zip (zarena_run a ops).1) := by
  induction ops with
  | nil =>
    intro a _
    rfl
  | cons op t ih =>
    intro a hall
    have hstep := zarena_step_ledger a op (hall op (List.mem_cons_self _ _))
    have htail := ih (zarena_step a op).2
      (fun o ho => hall o (List.mem_cons_of_mem _ ho))
    simp only [zarena_run, List.zip_cons_cons, ledgerFrom, List.foldl_cons]
    rw [← hstep]
    exact htail

/-- C4 counterexample: the claim as stated fails.  On the trace alloc 10,
alloc 1, realloc of the first region (address 32) from 10 to 20 bytes, the
realloc relocates (the region is not the most recent allocation), so the 10
abandoned bytes stay counted: total_alloc is 31 while the live requested
payload bytes in the claim reading (the relocated region now 20 bytes plus
the 1-byte region) are 21. -/
theorem zarena_total_alloc_not_live_bytes :
    (zarena_run zarena_empty
       [AOp.alloc 10 true, AOp.alloc 1 true,
        AOp.arealloc (some 32) 10 20 true]).2.total_alloc = 31 ∧
    specLiveBytes ([AOp.alloc 10 true, AOp.alloc 1 true,
        AOp.arealloc (some 32) 10 20 true].zip
      (zarena_run zarena_empty
        [AOp.alloc 10 true, AOp.alloc 1 true,
         AOp.arealloc (some 32) 10 20 true]).1) = 21 ∧
    ¬ ((zarena_run zarena_empty
       [AOp.alloc 10 true, AOp.alloc 1 true,
        AOp.arealloc (some 32) 10 20 true]).2.total_alloc
      = specLiveBytes ([AOp.alloc 10 true, AOp.alloc 1 true,
        AOp.arealloc (some 32) 10 20 true].zip
      (zarena_run zarena_empty
        [AOp.alloc 10 true, AOp.alloc 1 true,
         AOp.arealloc (some 32) 10 20 true]).1)) := by
  refine ⟨by decide, by decide, by decide⟩

/-- C4 corrected: for every sequence of alloc, alloc_align, alloc_zero and
reset operations (no realloc) on a freshly initialized arena, total_alloc
equals the sum of the requested sizes of the successful allocations since
the last reset; this is the live requested payload byte count, excluding
alignment padding, for such traces.  With reallocs the equality to live
bytes fails, because a relocating realloc leaves the abandoned region
counted and a shrinking realloc does not decrease the counter (see the
counterexample).  zarena_reset always sets total_alloc to zero. -/
theorem zarena_total_alloc_ledger (ops : List AOp)
    (h : ∀ op ∈ ops, op.isRealloc = false) :
    (zarena_run zarena_empty ops).2.total_alloc
      = ledgerFrom 0 (ops.zip (zarena_run zarena_empty ops).1) ∧
    ∀ a : Zarena, (zarena_reset a).total_alloc = 0 := by
  refine ⟨zarena_run_ledger ops zarena_empty h, fun a => rfl⟩

/-- Witness for the corrected C4 at a concrete realloc-free trace. -/
theorem zarena_total_alloc_ledger_witness :
    (zarena_run zarena_empty
      [AOp.alloc 10 true, AOp.reset, AOp.allocAlign 7 4 true,
       AOp.allocZero 0 true, AOp.alloc 5 false]).2.total_alloc
      = ledgerFrom 0 ([AOp.alloc 10 true, AOp.reset, AOp.allocAlign 7 4 true,
          AOp.allocZero 0 true, AOp.alloc 5 false].zip
        (zarena_run zarena_empty
          [AOp.alloc 10 true, AOp.reset, AOp.allocAlign 7 4 true,
           AOp.allocZero 0 true, AOp.alloc 5 false]).1) ∧
    ∀ a : Zarena, (zarena_reset a).total_alloc = 0 :=
  zarena_total_alloc_ledger
    [AOp.alloc 10 true, AOp.reset, AOp.allocAlign 7 4 true,
     AOp.allocZero 0 true, AOp.alloc 5 false]
    (by decide)

/-! Claim C5: backend call routing. -/

/-- C5 counterexample: the claim as stated fails for the debug guard.
zdebug_malloc_loc performs its backend memory operation by calling the C
standard library malloc directly (the C source calls malloc, not the
injected Z_MALLOC): allocating 1 byte performs exactly one backend call,
a direct stdlib allocation of 40 + 1 + 16 bytes, and that call is not a
call of the injected primitive. -/
theorem zdebug_backend_call_not_injected :
    (zdebug_malloc_loc gstate0 1 "f" 1 true).2.2 = [BackendCall.stdAlloc 57] ∧
    (zdebug_malloc_loc gstate0 1 "f" 1 true).2.2.all BackendCall.isInjected = false := by
  exact ⟨by decide, by decide⟩

theorem zarena_alloc_align_calls_injected (a : Zarena) (s al : Nat) (ok : Bool) :
    (zarena_alloc_align a s al ok).2.2.all BackendCall.isInjected = true := by
  unfold zarena_alloc_align zarena_grow
  split
  · rfl
  · cases a.blocks[a.headIdx]? with
    | none =>
      dsimp only
      split
      · cases a.blocks[a.headIdx]? <;> rfl
      · rfl
    | some hb =>
      dsimp only
      split
      · rfl
      · cases a.blocks[a.headIdx + 1]? with
        | some nb =>
          dsimp only
          split
          · rfl
          · split
            · rfl
            · rfl
        | none =>
          dsimp only
          split
          · rfl
          · rfl

theorem zarena_realloc_calls_injected (a : Zarena) (old : Option Nat)
    (os ns : Nat) (ok : Bool) :
    (zarena_realloc a old os ns ok).2.2.all BackendCall.isInjected = true := by
  unfold zarena_realloc
  cases old with
  | none => exact zarena_alloc_align_calls_injected a ns ZARENA_MAX_ALIGN ok
  | some p =>
    dsimp only
    split
    · rfl
    · split
      · rfl
      · cases a.blocks[a.headIdx]? with
        | none => exact zarena_alloc_align_calls_injected a ns ZARENA_MAX_ALIGN ok
        | some hb =>
          dsimp only
          split
          · split
            · rfl
            · exact zarena_alloc_align_calls_injected a ns ZARENA_MAX_ALIGN ok
          · exact zarena_alloc_align_calls_injected a ns ZARENA_MAX_ALIGN ok

theorem zpool_alloc_calls_injected (p : Zpool) (bk : Nat) (okSlab okArr : Bool) :
    (zpool_alloc p bk okSlab okArr).2.2.2.all BackendCall.isInjected = true := by
  cases hh : p.head with
  | some node => simp [zpool_alloc, hh]
  | none =>
    cases okSlab with
    | false => simp [zpool_alloc, zpool_grow, hh, BackendCall.isInjected]
    | true =>
      by_cases hc : p.blocks.length = p.block_cap
      · cases okArr with
        | false => simp [zpool_alloc, zpool_grow, hh, hc, BackendCall.isInjected]
        | true => simp [zpool_alloc, zpool_grow, hh, hc, BackendCall.isInjected]
      · simp [zpool_alloc, zpool_grow, hh, hc, BackendCall.isInjected]

theorem zarena_free_calls_injected (a : Zarena) :
    (zarena_free a).2.all BackendCall.isInjected = true := by
  unfold zarena_free
  dsimp only
  rw [List.all_eq_true]
  intro c hc
  obtain ⟨b, _, he⟩ := List.mem_map.mp hc
  rw [← he]
  rfl

theorem zpool_free_calls_injected (p : Zpool) (arr : Nat) :
    (zpool_free p arr).2.all BackendCall.isInjected = true := by
  unfold zpool_free
  dsimp only
  rw [List.all_eq_true]
  intro c hc
  rcases List.mem_append.mp hc with hm | hm
  · obtain ⟨b, _, he⟩ := List.mem_map.mp hm
    rw [← he]
    rfl
  · by_cases hbc : p.block_cap = 0
    · rw [if_pos hbc] at hm
      simp at hm
    · rw [if_neg hbc] at hm
      rw [List.mem_singleton.mp hm]
      rfl

theorem zdebug_malloc_calls_stdlib (st : GState) (s : Nat) (f : String)
    (l : Int) (ok : Bool) :
    (zdebug_malloc_loc st s f l ok).2.2.all BackendCall.isStdlib = true := by
  unfold zdebug_malloc_loc
  split
  · rfl
  · split
    · rfl
    · rfl

theorem zdebug_calloc_calls_stdlib (st : GState) (c s : Nat) (f : String)
    (l : Int) (ok : Bool) :
    (zdebug_calloc_loc st c s f l ok).2.2.all BackendCall.isStdlib = true := by
  unfold zdebug_calloc_loc
  dsimp only
  have h := zdebug_malloc_calls_stdlib st ((c * s) % 2 ^ SIZET_BITS) f l ok
  cases hr : (zdebug_malloc_loc st ((c * s) % 2 ^ SIZET_BITS) f l ok).1 with
  | some p => simpa using h
  | none => simpa using h

theorem zdebug_free_calls_stdlib (st : GState) (ptr : Option Nat)
    (r : GState × List BackendCall) (h : zdebug_free st ptr = .ok r) :
    r.2.all BackendCall.isStdlib = true := by
  unfold zdebug_free at h
  cases ptr with
  | none =>
    cases h
    rfl
  | some p =>
    dsimp only at h
    cases hl : alookup st.store p with
    | none =>
      rw [hl] at h
      exact Except.noConfusion h
    | some al =>
      rw [hl] at h
      dsimp only at h
      split at h
      · split at h <;> exact Except.noConfusion h
      · split at h
        · exact Except.noConfusion h
        · cases h
          rfl

theorem zdebug_realloc_calls_stdlib (st : GState) (ptr : Option Nat) (s : Nat)
    (f : String) (l : Int) (ok mv : Bool) (r : Option Nat × GState × List BackendCall)
    (h : zdebug_realloc_loc st ptr s f l ok mv = .ok r) :
    r.2.2.all BackendCall.isStdlib = true := by
  unfold zdebug_realloc_loc at h
  cases ptr with
  | none =>
    cases h
    exact zdebug_malloc_calls_stdlib st s f l ok
  | some p =>
    dsimp only at h
    split at h
    · cases hf : zdebug_free st (some p) with
      | error d =>
        rw [hf] at h
        exact Except.noConfusion h
      | ok r2 =>
        rw [hf] at h
        cases h
        exact zdebug_free_calls_stdlib st (some p) r2 hf
    · cases hl : alookup st.store p with
      | none =>
        rw [hl] at h
        exact Except.noConfusion h
      | some hd =>
        rw [hl] at h
        dsimp only at h
        split at h
        · exact Except.noConfusion h
        · split at h
          · exact Except.noConfusion h
          · split at h
            · split at h
              · cases h
                rfl
              · cases h
                rfl
            · cases h
              rfl

/-- C5 corrected: the arena and the pool perform every backend memory
operation — allocations, resizes and releases, including the zarena_free
and zpool_free teardown walks that release every block, slab and the slab
tracking array — through the injected Z_MALLOC / Z_REALLOC / Z_FREE
primitive, so substituting any conforming backend redirects all their
backend traffic without changing their logic; the debug guard, however,
performs every one of its backend memory operations by calling the C
standard library malloc / realloc / free directly, bypassing the injected
primitive, so a backend substitution does not affect it. -/
theorem backend_call_routing :
    (∀ (a : Zarena) (s al : Nat) (ok : Bool),
       (zarena_alloc_align a s al ok).2.2.all BackendCall.isInjected = true) ∧
    (∀ (a : Zarena) (old : Option Nat) (os ns : Nat) (ok : Bool),
       (zarena_realloc a old os ns ok).2.2.all BackendCall.isInjected = true) ∧
    (∀ (a : Zarena),
       (zarena_free a).2.all BackendCall.isInjected = true) ∧
    (∀ (p : Zpool) (bk : Nat) (okSlab okArr : Bool),
       (zpool_alloc p bk okSlab okArr).2.2.2.all BackendCall.isInjected = true) ∧
    (∀ (p : Zpool) (arr : Nat),
       (zpool_free p arr).2.all BackendCall.isInjected = true) ∧
    (∀ (st : GState) (s : Nat) (f : String) (l : Int) (ok : Bool),
       (zdebug_malloc_loc st s f l ok).2.2.all BackendCall.isStdlib = true) ∧
    (∀ (st : GState) (c s : Nat) (f : String) (l : Int) (ok : Bool),
       (zdebug_calloc_loc st c s f l ok).2.2.all BackendCall.isStdlib = true) ∧
    (∀ (st : GState) (ptr : Option Nat) (s : Nat) (f : String) (l : Int)
       (ok mv : Bool) (r : Option Nat × GState × List BackendCall),
       zdebug_realloc_loc st ptr s f l ok mv = .ok r →
         r.2.2.all BackendCall.isStdlib = true) ∧
    (∀ (st : GState) (ptr : Option Nat) (r : GState × List BackendCall),
       zdebug_free st ptr = .ok r → r.2.all BackendCall.isStdlib = true) :=
  ⟨zarena_alloc_align_calls_injected, zarena_realloc_calls_injected,
   zarena_free_calls_injected, zpool_alloc_calls_injected,
   zpool_free_calls_injected, zdebug_malloc_calls_stdlib,
   zdebug_calloc_calls_stdlib, zdebug_realloc_calls_stdlib,
   zdebug_free_calls_stdlib⟩

/-- Witness for the corrected C5, instantiating every conjunct at a concrete
input (including discharging the success hypotheses of the realloc and free
conjuncts at concrete states). -/
theorem backend_call_routing_witness :
    (zarena_alloc_align zarena_empty 5 8 true).2.2.all BackendCall.isInjected = true ∧
    (zarena_realloc zarena_empty none 0 9 true).2.2.all BackendCall.isInjected = true ∧
    (zarena_free (zarena_alloc_align zarena_empty 5 8 true).2.1).2.all
        BackendCall.isInjected = true ∧
    (zpool_alloc (zpool_init 16 4) 0 true true).2.2.2.all BackendCall.isInjected = true ∧
    (zpool_free (zpool_alloc (zpool_init 16 4) 0 true true).2.1 500).2.all
        BackendCall.isInjected = true ∧
    (zdebug_malloc_loc gstate0 3 "w" 1 true).2.2.all BackendCall.isStdlib = true ∧
    (zdebug_calloc_loc gstate0 2 3 "w" 1 true).2.2.all BackendCall.isStdlib = true ∧
    ((zdebug_realloc_loc gstate0 none 3 "w" 1 true false).toOption.getD
        (none, gstate0, [])).2.2.all BackendCall.isStdlib = true ∧
    ((zdebug_free gstate0 none).toOption.getD (gstate0, [])).2.all
        BackendCall.isStdlib = true :=
  ⟨backend_call_routing.1 zarena_empty 5 8 true,
   backend_call_routing.2.1 zarena_empty none 0 9 true,
   backend_call_routing.2.2.1 (zarena_alloc_align zarena_empty 5 8 true).2.1,
   backend_call_routing.2.2.2.1 (zpool_init 16 4) 0 true true,
   backend_call_routing.2.2.2.2.1 (zpool_alloc (zpool_init 16 4) 0 true true).2.1 500,
   backend_call_routing.2.2.2.2.2.1 gstate0 3 "w" 1 true,
   backend_call_routing.2.2.2.2.2.2.1 gstate0 2 3 "w" 1 true,
   backend_call_routing.2.2.2.2.2.2.2.1 gstate0 none 3 "w" 1 true false _ (by rfl),
   backend_call_routing.2.2.2.2.2.2.2.2 gstate0 none _ (by rfl)⟩

/-! Claim C7: zpool_alloc failure paths. -/

/-- C7: when zpool_alloc finds the free list empty it asks the backend for
one slab of item_size * count_per_block bytes.  If that backend allocation
fails, the call returns a null result and the pool is returned exactly as it
was (first conjunct).  If the slab allocation succeeds but the slab-tracking
array needs to grow and that growth fails, the fresh slab is released first
(the injFree of the slab base appears after the failed injRealloc) and the
call returns a null result with the pool again exactly as it was (second
conjunct).  When no array growth is needed the successful call appends
exactly one slab (third conjunct). -/
theorem zpool_alloc_failure_frame (p : Zpool) (bk : Nat) (okArr : Bool)
    (h : p.head = none) :
    zpool_alloc p bk false okArr
      = (none, p, bk, [BackendCall.injAlloc (p.item_size * p.count_per_block)]) ∧
    (p.blocks.length = p.block_cap →
      zpool_alloc p bk true false
        = (none, p, bk + p.item_size * p.count_per_block,
           [BackendCall.injAlloc (p.item_size * p.count_per_block),
            BackendCall.injRealloc
              ((if p.block_cap = 0 then 8 else p.block_cap * 2) * ptrAlign),
            BackendCall.injFree bk])) ∧
    (p.blocks.length ≠ p.block_cap →
      (zpool_alloc p bk true okArr).2.1.blocks = p.blocks ++ [bk]) := by
  refine ⟨?_, ?_, ?_⟩
  · simp [zpool_alloc, zpool_grow, h]
  · intro hc
    simp [zpool_alloc, zpool_grow, h, hc]
  · intro hc
    simp [zpool_alloc, zpool_grow, h, hc]

/-- Witness for C7 at a freshly initialized pool (empty free list and a full
zero-capacity tracking array, so the failing array growth path is
exercised). -/
theorem zpool_alloc_failure_frame_witness :
    zpool_alloc (zpool_init 16 4) 7 false true
      = (none, zpool_init 16 4, 7,
         [BackendCall.injAlloc ((zpool_init 16 4).item_size * (zpool_init 16 4).count_per_block)]) ∧
    ((zpool_init 16 4).blocks.length = (zpool_init 16 4).block_cap →
      zpool_alloc (zpool_init 16 4) 7 true false
        = (none, zpool_init 16 4,
           7 + (zpool_init 16 4).item_size * (zpool_init 16 4).count_per_block,
           [BackendCall.injAlloc ((zpool_init 16 4).item_size * (zpool_init 16 4).count_per_block),
            BackendCall.injRealloc
              ((if (zpool_init 16 4).block_cap = 0 then 8 else (zpool_init 16 4).block_cap * 2) * ptrAlign),
            BackendCall.injFree 7])) ∧
    ((zpool_init 16 4).blocks.length ≠ (zpool_init 16 4).block_cap →
      (zpool_alloc (zpool_init 16 4) 7 true true).2.1.blocks
        = (zpool_init 16 4).blocks ++ [7]) :=
  zpool_alloc_failure_frame (zpool_init 16 4) 7 true (by decide)

/-! Claim C8: zdebug_calloc_loc and wrapping multiplication. -/

/-- C8 counterexample: the claim as stated fails when the wrapped product is
exactly zero.  With count = 2 ^ 32 and size = 2 ^ 32 the product 2 ^ 64
exceeds the size_t maximum and wraps to 0, and zdebug_calloc_loc returns a
null result leaving the state untouched — it records no allocation at all,
whereas the claim says every overflowing call records the wrapped value as
the allocation's size. -/
theorem zdebug_calloc_wrap_zero :
    2 ^ 32 * 2 ^ 32 > 2 ^ SIZET_BITS - 1 ∧
    zdebug_calloc_loc gstate0 (2 ^ 32) (2 ^ 32) "f" 1 true = (none, gstate0, []) := by
  exact ⟨by decide, by decide⟩

theorem zdebug_malloc_loc_success (st : GState) (s : Nat) (f : String) (l : Int)
    (hs : ¬ s = 0) :
    zdebug_malloc_loc st s f l true
      = (some (st.nextAddr + hdrG),
         { store := (gAdd ((st.nextAddr + hdrG,
              { prev := none, next := none, file := f, size := s, line := l,
                magic := ZDEBUG_MAGIC_ALIVE,
                payload := List.replicate s junkByte,
                canary := List.replicate ZDEBUG_CANARY_SIZE ZDEBUG_CANARY_VAL }) :: st.store)
              st.ghead (st.nextAddr + hdrG)).1,
           ghead := (gAdd ((st.nextAddr + hdrG,
              { prev := none, next := none, file := f, size := s, line := l,
                magic := ZDEBUG_MAGIC_ALIVE,
                payload := List.replicate s junkByte,
                canary := List.replicate ZDEBUG_CANARY_SIZE ZDEBUG_CANARY_VAL }) :: st.store)
              st.ghead (st.nextAddr + hdrG)).2,
           nextAddr := st.nextAddr + (hdrG + s + ZDEBUG_CANARY_SIZE) },
         [BackendCall.stdAlloc (hdrG + s + ZDEBUG_CANARY_SIZE)]) := by
  unfold zdebug_malloc_loc
  rw [if_neg hs]
  rfl

theorem alookup_gAdd_fields (s : List (Nat × GAlloc)) (g : Option Nat) (p : Nat)
    (v : GAlloc) (hv : alookup s p = some v) :
    ∃ w, alookup (gAdd s g p).1 p = some w ∧ w.file = v.file ∧ w.size = v.size ∧
      w.line = v.line ∧ w.magic = v.magic ∧ w.payload = v.payload ∧
      w.canary = v.canary := by
  unfold gAdd
  cases g with
  | none =>
    refine ⟨{ v with prev := none, next := none }, ?_, rfl, rfl, rfl, rfl, rfl, rfl⟩
    rw [alookup_aupd_self, hv]
    rfl
  | some g0 =>
    by_cases hg : g0 = p
    · subst hg
      refine ⟨{ v with prev := some g0, next := some g0 }, ?_, rfl, rfl, rfl, rfl, rfl, rfl⟩
      rw [alookup_aupd_self, alookup_aupd_self, hv]
      rfl
    · refine ⟨{ v with prev := none, next := some g0 }, ?_, rfl, rfl, rfl, rfl, rfl, rfl⟩
      rw [alookup_aupd_ne _ _ _ _ (fun he => hg he.symm), alookup_aupd_self, hv]
      rfl

theorem alookup_cons_self {β : Type} (k : Nat) (v : β) (t : List (Nat × β)) :
    alookup ((k, v) :: t) k = some v := by
  simp [alookup]

/-- C8 corrected: zdebug_calloc_loc computes the payload size as
count * size with wrapping size_t multiplication and no overflow check.
Whenever the wrapped product n = (count * size) mod 2 ^ 64 is non-zero and
the backend succeeds, the call allocates, records n as the allocation's
size and zero-fills exactly n bytes — for products exceeding the size_t
maximum only the wrapped number of bytes, rather than failing.  When the
product wraps to exactly zero (e.g. count = size = 2 ^ 32) the call instead
returns a null result and allocates nothing. -/
theorem zdebug_calloc_wrapping (st : GState) (count size : Nat) (f : String)
    (l : Int) :
    ((count * size) % 2 ^ SIZET_BITS ≠ 0 →
      (zdebug_calloc_loc st count size f l true).1 = some (st.nextAddr + hdrG) ∧
      ∃ al, alookup (zdebug_calloc_loc st count size f l true).2.1.store
              (st.nextAddr + hdrG) = some al ∧
        al.size = (count * size) % 2 ^ SIZET_BITS ∧
        al.payload = List.replicate ((count * size) % 2 ^ SIZET_BITS) 0 ∧
        al.magic = ZDEBUG_MAGIC_ALIVE) ∧
    ((count * size) % 2 ^ SIZET_BITS = 0 →
      zdebug_calloc_loc st count size f l true = (none, st, [])) := by
  constructor
  · intro hn
    have hmal := zdebug_malloc_loc_success st ((count * size) % 2 ^ SIZET_BITS) f l hn
    have hv0 := alookup_cons_self (st.nextAddr + hdrG)
      (⟨none, none, f, (count * size) % 2 ^ SIZET_BITS, l, ZDEBUG_MAGIC_ALIVE,
        List.replicate ((count * size) % 2 ^ SIZET_BITS) junkByte,
        List.replicate ZDEBUG_CANARY_SIZE ZDEBUG_CANARY_VAL⟩ : GAlloc) st.store
    obtain ⟨w, hw, hwf, hws, hwl, hwm, hwp, hwc⟩ :=
      alookup_gAdd_fields _ st.ghead (st.nextAddr + hdrG) _ hv0
    unfold zdebug_calloc_loc
    dsimp only
    rw [hmal]
    refine ⟨rfl, ?_⟩
    refine ⟨{ w with payload := List.replicate ((count * size) % 2 ^ SIZET_BITS) 0 },
      ?_, ?_, rfl, ?_⟩
    · rw [alookup_aupd_self, hw]
      rfl
    · exact hws
    · exact hwm
  · intro hz
    unfold zdebug_calloc_loc zdebug_malloc_loc
    rw [hz]
    rfl

/-- Witness for the corrected C8 at an overflowing input whose wrapped
product is non-zero: count = 2 ^ 63 + 1 and size = 2 wrap to 2. -/
theorem zdebug_calloc_wrapping_witness :
    ((2 ^ 63 + 1) * 2 % 2 ^ SIZET_BITS ≠ 0 →
      (zdebug_calloc_loc gstate0 (2 ^ 63 + 1) 2 "f" 1 true).1
        = some (gstate0.nextAddr + hdrG) ∧
      ∃ al, alookup (zdebug_calloc_loc gstate0 (2 ^ 63 + 1) 2 "f" 1 true).2.1.store
              (gstate0.nextAddr + hdrG) = some al ∧
        al.size = (2 ^ 63 + 1) * 2 % 2 ^ SIZET_BITS ∧
        al.payload = List.replicate ((2 ^ 63 + 1) * 2 % 2 ^ SIZET_BITS) 0 ∧
        al.magic = ZDEBUG_MAGIC_ALIVE) ∧
    ((2 ^ 63 + 1) * 2 % 2 ^ SIZET_BITS = 0 →
      zdebug_calloc_loc gstate0 (2 ^ 63 + 1) 2 "f" 1 true = (none, gstate0, [])) :=
  zdebug_calloc_wrapping gstate0 (2 ^ 63 + 1) 2 "f" 1

/-! Claims C2, C6, C9: the debug-guard live list. -/

theorem chainOk_congr (s s' : List (Nat × GAlloc)) :
    ∀ (l : List Nat) (pr c : Option Nat),
      (∀ a ∈ l, links (alookup s' a) = links (alookup s a)) →
      chainOkB s' pr c l = chainOkB s pr c l := by
  intro l
  induction l with
  | nil =>
    intro pr c _
    rfl
  | cons a t ih =>
    intro pr c hag
    have ha := hag a (List.mem_cons_self _ _)
    have ht : ∀ x ∈ t, links (alookup s' x) = links (alookup s x) :=
      fun x hx2 => hag x (List.mem_cons_of_mem _ hx2)
    unfold chainOkB
    cases hx : alookup s a with
    | none =>
      rw [hx] at ha
      cases hy : alookup s' a with
      | none => rfl
      | some w =>
        rw [hy] at ha
        exact absurd ha (by simp [links])
    | some v =>
      cases hy : alookup s' a with
      | none =>
        rw [hx, hy] at ha
        exact absurd ha (by simp [links])
      | some w =>
        rw [hx, hy] at ha
        have hpair : (w.prev, w.next) = (v.prev, v.next) := by
          simpa [links] using ha
        have hprev : w.prev = v.prev := congrArg Prod.fst hpair
        have hnext : w.next = v.next := congrArg Prod.snd hpair
        dsimp only
        rw [hprev, hnext, ih (some a) v.next ht]

theorem chainOk_mem_lookup (s : List (Nat × GAlloc)) :
    ∀ (l : List Nat) (pr c : Option Nat), chainOkB s pr c l = true →
      ∀ a ∈ l, ∃ al, alookup s a = some al := by
  intro l
  induction l with
  | nil =>
    intro pr c _ a ha
    simp at ha
  | cons b t ih =>
    intro pr c hc a ha
    unfold chainOkB at hc
    obtain ⟨h1, h2⟩ := (Bool.and_eq_true _ _).mp hc
    cases hx : alookup s b with
    | none =>
      rw [hx] at h2
      simp at h2
    | some v =>
      rw [hx] at h2
      dsimp only at h2
      obtain ⟨h3, h4⟩ := (Bool.and_eq_true _ _).mp h2
      rcases List.mem_cons.mp ha with rfl | ha2
      · exact ⟨v, hx⟩
      · exact ih _ _ h4 a ha2

theorem chainOk_gAdd (s : List (Nat × GAlloc)) (g : Option Nat) (p : Nat)
    (l : List Nat) (v : GAlloc)
    (hchain : chainOkB s none g l = true) (hnd : l.Nodup) (hp : p ∉ l)
    (hv : alookup s p = some v) :
    chainOkB (gAdd s g p).1 none (gAdd s g p).2 (p :: l) = true := by
  unfold gAdd
  cases l with
  | nil =>
    have hg : g = none := by
      unfold chainOkB at hchain
      simpa using hchain
    subst hg
    unfold chainOkB
    rw [alookup_aupd_self, hv]
    dsimp only
    unfold chainOkB
    simp
  | cons a t =>
    have hg : g = some a := by
      unfold chainOkB at hchain
      obtain ⟨h1, _⟩ := (Bool.and_eq_true _ _).mp hchain
      simpa using h1
    subst hg
    have hpa : p ≠ a := fun he => hp (he ▸ List.mem_cons_self _ _)
    have hpt : p ∉ t := fun he => hp (List.mem_cons_of_mem _ he)
    have hat : a ∉ t := (List.nodup_cons.mp hnd).1
    unfold chainOkB at hchain
    obtain ⟨h1, h2⟩ := (Bool.and_eq_true _ _).mp hchain
    cases hxa : alookup s a with
    | none =>
      rw [hxa] at h2
      simp at h2
    | some va =>
      rw [hxa] at h2
      dsimp only at h2
      obtain ⟨h3, h4⟩ := (Bool.and_eq_true _ _).mp h2
      unfold chainOkB
      rw [alookup_aupd_ne _ _ _ _ hpa, alookup_aupd_self, hv]
      dsimp only [Option.map]
      unfold chainOkB
      rw [alookup_aupd_self, alookup_aupd_ne _ _ _ _ (fun he => hpa he.symm), hxa]
      dsimp only [Option.map]
      have hcongr : chainOkB (aupd (aupd s p
            (fun al => { al with next := some a, prev := none })) a
            (fun al => { al with prev := some p })) (some a) va.next t
          = chainOkB s (some a) va.next t := by
        apply chainOk_congr
        intro x hx
        have hx1 : x ≠ a := fun he => hat (by rw [← he]; exact hx)
        have hx2 : x ≠ p := fun he => hpt (by rw [← he]; exact hx)
        rw [alookup_aupd_ne _ _ _ _ hx1, alookup_aupd_ne _ _ _ _ hx2]
      rw [hcongr, h4]
      simp

theorem chainOk_nil_elim (s : List (Nat × GAlloc)) (pr c : Option Nat)
    (hc : chainOkB s pr c [] = true) : c = none := by
  unfold chainOkB at hc
  simpa using hc

theorem chainOk_nil_intro (s : List (Nat × GAlloc)) (pr : Option Nat) :
    chainOkB s pr none [] = true := by
  unfold chainOkB
  simp

theorem chainOk_cons_elim (s : List (Nat × GAlloc)) (pr c : Option Nat)
    (a : Nat) (t : List Nat) (hc : chainOkB s pr c (a :: t) = true) :
    c = some a ∧ ∃ v, alookup s a = some v ∧ v.prev = pr ∧
      chainOkB s (some a) v.next t = true := by
  unfold chainOkB at hc
  obtain ⟨h1, h2⟩ := (Bool.and_eq_true _ _).mp hc
  refine ⟨by simpa using h1, ?_⟩
  cases hx : alookup s a with
  | none =>
    rw [hx] at h2
    simp at h2
  | some v =>
    rw [hx] at h2
    dsimp only at h2
    obtain ⟨h3, h4⟩ := (Bool.and_eq_true _ _).mp h2
    exact ⟨v, rfl, of_decide_eq_true h3, h4⟩

theorem chainOk_cons_intro (s : List (Nat × GAlloc)) (pr : Option Nat)
    (a : Nat) (t : List Nat) (v : GAlloc) (hv : alookup s a = some v)
    (hprev : v.prev = pr) (ht : chainOkB s (some a) v.next t = true) :
    chainOkB s pr (some a) (a :: t) = true := by
  unfold chainOkB
  rw [hv]
  dsimp only
  rw [hprev, ht]
  simp

theorem gRemove_lookup (s : List (Nat × GAlloc)) (g : Option Nat) (p : Nat)
    (h : GAlloc) (hp : alookup s p = some h) (x : Nat)
    (hxq : ∀ q, h.prev = some q → x ≠ q)
    (hxr : ∀ r, h.next = some r → x ≠ r) :
    alookup (gRemove s g p).1 x = alookup s x := by
  unfold gRemove
  rw [hp]
  dsimp only
  cases hhp : h.prev with
  | none =>
    cases hhn : h.next with
    | none => rfl
    | some r => exact alookup_aupd_ne _ _ _ _ (hxr r hhn)
  | some q =>
    cases hhn : h.next with
    | none => exact alookup_aupd_ne _ _ _ _ (hxq q hhp)
    | some r =>
      rw [alookup_aupd_ne _ _ _ _ (hxr r hhn), alookup_aupd_ne _ _ _ _ (hxq q hhp)]

theorem gRemove_lookup_nextnode (s : List (Nat × GAlloc)) (g : Option Nat)
    (p : Nat) (h : GAlloc) (r : Nat) (vr : GAlloc)
    (hp : alookup s p = some h) (hhn : h.next = some r)
    (hvr : alookup s r = some vr)
    (hrq : ∀ q, h.prev = some q → r ≠ q) :
    alookup (gRemove s g p).1 r = some { vr with prev := h.prev } := by
  unfold gRemove
  rw [hp]
  dsimp only
  cases hhp : h.prev with
  | none =>
    rw [hhn]
    dsimp only
    rw [alookup_aupd_self, hvr]
    rfl
  | some q =>
    rw [hhn]
    dsimp only
    rw [alookup_aupd_self, alookup_aupd_ne _ _ _ _ (hrq q hhp), hvr]
    rfl

theorem gRemove_lookup_prevnode (s : List (Nat × GAlloc)) (g : Option Nat)
    (p : Nat) (h : GAlloc) (q : Nat) (vq : GAlloc)
    (hp : alookup s p = some h) (hhp : h.prev = some q)
    (hvq : alookup s q = some vq)
    (hqr : ∀ r, h.next = some r → q ≠ r) :
    alookup (gRemove s g p).1 q = some { vq with next := h.next } := by
  unfold gRemove
  rw [hp]
  dsimp only
  cases hhn : h.next with
  | none =>
    rw [hhp]
    dsimp only
    rw [alookup_aupd_self, hvq]
    rfl
  | some r =>
    rw [hhp]
    dsimp only
    rw [alookup_aupd_ne _ _ _ _ (hqr r hhn), alookup_aupd_self, hvq]
    rfl

theorem gRemove_ghead_none (s : List (Nat × GAlloc)) (g : Option Nat) (p : Nat)
    (h : GAlloc) (hp : alookup s p = some h) (hhp : h.prev = none) :
    (gRemove s g p).2 = h.next := by
  unfold gRemove
  rw [hp]
  dsimp only
  rw [hhp]

theorem gRemove_ghead_some (s : List (Nat × GAlloc)) (g : Option Nat) (p : Nat)
    (h : GAlloc) (q : Nat) (hp : alookup s p = some h) (hhp : h.prev = some q) :
    (gRemove s g p).2 = g := by
  unfold gRemove
  rw [hp]
  dsimp only
  rw [hhp]

theorem chainOk_remove_aux (s : List (Nat × GAlloc)) (g : Option Nat) (p : Nat)
    (h : GAlloc) (hp : alookup s p = some h) (l2 : List Nat) :
    ∀ (l1 : List Nat) (pr c : Option Nat),
      chainOkB s pr c (l1 ++ p :: l2) = true →
      (l1 ++ p :: l2).Nodup →
      (∀ q, pr = some q → q ∉ p :: l2) →
      chainOkB (gRemove s g p).1 pr (if l1.isEmpty then h.next else c) (l1 ++ l2) = true ∧
      (l1 = [] → h.prev = pr) ∧
      (l1 ≠ [] → ∃ q, h.prev = some q ∧ q ∈ l1) ∧
      (∀ r, h.next = some r → r ∈ l2) := by
  intro l1
  induction l1 with
  | nil =>
    intro pr c hchain hnd hpr
    rw [List.nil_append] at hchain hnd
    obtain ⟨hc, v, hv, hvprev, h4⟩ := chainOk_cons_elim s pr c p l2 hchain
    have hveq : v = h := Option.some.inj (hv.symm.trans hp)
    rw [hveq] at hvprev h4
    obtain ⟨hpl2, hndl2⟩ := List.nodup_cons.mp hnd
    have hnextmem : ∀ r, h.next = some r → r ∈ l2 := by
      intro r hr
      cases hl2 : l2 with
      | nil =>
        rw [hl2] at h4
        have := chainOk_nil_elim _ _ _ h4
        rw [hr] at this
        exact Option.noConfusion this
      | cons r2 t2 =>
        rw [hl2] at h4
        obtain ⟨hcr, _⟩ := chainOk_cons_elim _ _ _ _ _ h4
        rw [hr] at hcr
        cases Option.some.inj hcr
        simp
    refine ⟨?_, fun _ => hvprev, fun hne => absurd rfl hne, hnextmem⟩
    show chainOkB (gRemove s g p).1 pr h.next l2 = true
    cases hl2 : l2 with
    | nil =>
      rw [hl2] at h4
      have hnext := chainOk_nil_elim _ _ _ h4
      rw [hnext]
      exact chainOk_nil_intro _ _
    | cons r t2 =>
      rw [hl2] at h4 hpl2 hndl2
      obtain ⟨hcr, vr, hvr, hvrprev, h5⟩ := chainOk_cons_elim _ _ _ _ _ h4
      obtain ⟨hrt2, hndt2⟩ := List.nodup_cons.mp hndl2
      have hrq : ∀ q, h.prev = some q → r ≠ q := by
        intro q hq he
        rw [hvprev] at hq
        have := hpr q hq
        rw [hl2] at this
        exact this (by simp [← he])
      rw [hcr]
      apply chainOk_cons_intro _ _ _ _ ({ vr with prev := h.prev })
      · exact gRemove_lookup_nextnode s g p h r vr hp hcr hvr hrq
      · dsimp only
        rw [hvprev]
      · dsimp only
        have hcongr : chainOkB (gRemove s g p).1 (some r) vr.next t2
            = chainOkB s (some r) vr.next t2 := by
          apply chainOk_congr
          intro x hx
          rw [gRemove_lookup s g p h hp x ?_ ?_]
          · intro q hq he
            rw [hvprev] at hq
            have := hpr q hq
            rw [hl2] at this
            subst he
            exact this (by simp [hx])
          · intro r2 hr2 he
            rw [hcr] at hr2
            cases Option.some.inj hr2
            subst he
            exact hrt2 hx
        rw [hcongr]
        exact h5
  | cons b l1x ih =>
    intro pr c hchain hnd hpr
    rw [List.cons_append] at hchain hnd
    obtain ⟨hc, vb, hvb, hvbprev, hrest⟩ := chainOk_cons_elim s pr c b _ hchain
    obtain ⟨hbnin, hnd2⟩ := List.nodup_cons.mp hnd
    have hbp : b ∉ p :: l2 := by
      intro hmem
      exact hbnin (List.mem_append_right _ hmem)
    have hpr2 : ∀ q, some b = some q → q ∉ p :: l2 := by
      intro q hq
      cases Option.some.inj hq
      exact hbp
    obtain ⟨ih1, ih2, ih3, ih4⟩ := ih (some b) vb.next hrest hnd2 hpr2
    have hbl1 : b ∉ l1x := by
      intro hmem
      exact hbnin (List.mem_append_left _ hmem)
    have hbne2 : ∀ r, h.next = some r → b ≠ r := by
      intro r hr he
      have := ih4 r hr
      subst he
      exact hbp (List.mem_cons_of_mem _ this)
    refine ⟨?_, fun he => List.noConfusion he, ?_, ih4⟩
    · show chainOkB (gRemove s g p).1 pr c ((b :: l1x) ++ l2) = true
      rw [hc, List.cons_append]
      cases hl1 : l1x with
      | nil =>
        have hprev := ih2 hl1
        apply chainOk_cons_intro _ _ _ _ ({ vb with next := h.next })
        · exact gRemove_lookup_prevnode s g p h b vb hp hprev hvb hbne2
        · dsimp only
          exact hvbprev
        · dsimp only
          have := ih1
          rw [hl1] at this
          simpa using this
      | cons b2 l1y =>
        obtain ⟨q, hq1, hq2⟩ := ih3 (by rw [hl1]; exact fun he => List.noConfusion he)
        have hbq : ∀ q2, h.prev = some q2 → b ≠ q2 := by
          intro q2 hq3 he
          rw [hq1] at hq3
          cases Option.some.inj hq3
          subst he
          exact hbl1 hq2
        apply chainOk_cons_intro _ _ _ _ vb
        · rw [gRemove_lookup s g p h hp b hbq hbne2]
          exact hvb
        · exact hvbprev
        · have := ih1
          rw [hl1] at this
          simpa using this
    · intro _
      cases hl1 : l1x with
      | nil => exact ⟨b, ih2 hl1, by simp⟩
      | cons b2 l1y =>
        obtain ⟨q, hq1, hq2⟩ := ih3 (by rw [hl1]; exact fun he => List.noConfusion he)
        exact ⟨q, hq1, List.mem_cons_of_mem _ (by rw [← hl1] at *; exact hq2)⟩

theorem chainOk_gRemove (s : List (Nat × GAlloc)) (g : Option Nat) (p : Nat)
    (h : GAlloc) (l1 l2 : List Nat)
    (hp : alookup s p = some h)
    (hchain : chainOkB s none g (l1 ++ p :: l2) = true)
    (hnd : (l1 ++ p :: l2).Nodup) :
    chainOkB (gRemove s g p).1 none (gRemove s g p).2 (l1 ++ l2) = true := by
  obtain ⟨h1, h2, h3, h4⟩ :=
    chainOk_remove_aux s g p h hp l2 l1 none g hchain hnd
      (fun q hq => Option.noConfusion hq)
  cases l1 with
  | nil =>
    have hprev := h2 rfl
    rw [gRemove_ghead_none s g p h hp hprev]
    simpa using h1
  | cons b t =>
    obtain ⟨q, hq1, _⟩ := h3 (fun he => List.noConfusion he)
    rw [gRemove_ghead_some s g p h q hp hq1]
    simpa using h1

/-- C2: if the backend resize fails during zdebug_realloc_loc on a validated
live pointer p with a non-zero new size, the call returns a null result, the
header at p keeps its origin (file, line), size, ALIVE magic and payload
bytes unmodified, and p appears exactly once in the live list rooted at the
global head afterwards: the original allocation remains valid and owned by
the guard. -/
theorem zdebug_realloc_backend_failure_safe (st : GState) (p : Nat)
    (al : GAlloc) (l : List Nat) (size : Nat) (f : String) (ln : Int)
    (mv : Bool)
    (hchain : chainOkB st.store none st.ghead l = true)
    (hnd : l.Nodup)
    (hal : alookup st.store p = some al)
    (hmagic : al.magic = ZDEBUG_MAGIC_ALIVE)
    (hcan : canaryOkB al = true)
    (hmem : p ∈ l)
    (hsz : size ≠ 0) :
    ∃ st2, zdebug_realloc_loc st (some p) size f ln false mv
        = .ok (none, st2, [BackendCall.stdRealloc (hdrG + size + ZDEBUG_CANARY_SIZE)]) ∧
      (∃ al2, alookup st2.store p = some al2 ∧ al2.file = al.file ∧
        al2.line = al.line ∧ al2.size = al.size ∧
        al2.magic = ZDEBUG_MAGIC_ALIVE ∧ al2.payload = al.payload ∧
        al2.canary = al.canary) ∧
      (∃ l2, chainOkB st2.store none st2.ghead l2 = true ∧
        List.count p l2 = 1) := by
  obtain ⟨l1, lr, hsplit⟩ := List.append_of_mem hmem
  subst hsplit
  obtain ⟨h1, h2, h3, h4⟩ :=
    chainOk_remove_aux st.store st.ghead p al hal lr l1 none st.ghead hchain hnd
      (fun q hq => Option.noConfusion hq)
  have hpl1 : p ∉ l1 := by
    intro hmem2
    have := List.Nodup.not_mem ((List.nodup_append.mp hnd).2.1)
    exact (List.disjoint_of_nodup_append hnd) hmem2 (List.mem_cons_self _ _)
  have hplr : p ∉ lr := by
    have := (List.nodup_append.mp hnd).2.1
    exact (List.nodup_cons.mp this).1
  have hprevne : ∀ q, al.prev = some q → p ≠ q := by
    intro q hq he
    cases l1 with
    | nil =>
      have := h2 rfl
      rw [hq] at this
      exact Option.noConfusion this
    | cons b t =>
      obtain ⟨q2, hq2, hq3⟩ := h3 (fun he2 => List.noConfusion he2)
      rw [hq] at hq2
      cases Option.some.inj hq2
      subst he
      exact hpl1 hq3
  have hnextne : ∀ r, al.next = some r → p ≠ r := by
    intro r hr he
    subst he
    exact hplr (h4 p hr)
  have hrem := chainOk_gRemove st.store st.ghead p al l1 lr hal hchain hnd
  have hndrem : (l1 ++ lr).Nodup := by
    have hsub : (l1 ++ lr).Sublist (l1 ++ p :: lr) :=
      List.Sublist.append_left (List.sublist_cons_self p lr) l1
    exact hnd.sublist hsub
  have hpnin : p ∉ l1 ++ lr := by
    intro hmem2
    rcases List.mem_append.mp hmem2 with hm | hm
    · exact hpl1 hm
    · exact hplr hm
  have hlook1 : alookup (gRemove st.store st.ghead p).1 p = some al := by
    rw [gRemove_lookup st.store st.ghead p al hal p hprevne hnextne]
    exact hal
  have hadd := chainOk_gAdd (gRemove st.store st.ghead p).1
    (gRemove st.store st.ghead p).2 p (l1 ++ lr) al hrem hndrem hpnin hlook1
  obtain ⟨w, hw, hwf, hws, hwl, hwm, hwp, hwc⟩ :=
    alookup_gAdd_fields (gRemove st.store st.ghead p).1
      (gRemove st.store st.ghead p).2 p al hlook1
  refine ⟨{ st with
      store := (gAdd (gRemove st.store st.ghead p).1
        (gRemove st.store st.ghead p).2 p).1,
      ghead := (gAdd (gRemove st.store st.ghead p).1
        (gRemove st.store st.ghead p).2 p).2 },
    ?_, ⟨w, ?_, hwf, hwl, hws, ?_, hwp, hwc⟩, ⟨p :: (l1 ++ lr), ?_, ?_⟩⟩
  · unfold zdebug_realloc_loc
    dsimp only
    rw [if_neg hsz, hal]
    dsimp only
    rw [if_neg (by rw [hmagic]; simp), if_neg (by rw [hcan]; simp)]
    rfl
  · exact hw
  · rw [hwm, hmagic]
  · exact hadd
  · rw [List.count_cons_self, List.count_eq_zero_of_not_mem hpnin]

/-- Witness for C2 at a concrete single-allocation state. -/
theorem zdebug_realloc_backend_failure_safe_witness :
    ∃ st2, zdebug_realloc_loc
        { store := [(100, ⟨none, none, "a", 2, 7, ZDEBUG_MAGIC_ALIVE, [1, 2],
            List.replicate ZDEBUG_CANARY_SIZE ZDEBUG_CANARY_VAL⟩)],
          ghead := some 100, nextAddr := 200 } (some 100) 5 "g" 9 false true
        = .ok (none, st2, [BackendCall.stdRealloc (hdrG + 5 + ZDEBUG_CANARY_SIZE)]) ∧
      (∃ al2, alookup st2.store 100 = some al2 ∧ al2.file = "a" ∧ al2.line = 7 ∧
        al2.size = 2 ∧ al2.magic = ZDEBUG_MAGIC_ALIVE ∧ al2.payload = [1, 2] ∧
        al2.canary = List.replicate ZDEBUG_CANARY_SIZE ZDEBUG_CANARY_VAL) ∧
      (∃ l2, chainOkB st2.store none st2.ghead l2 = true ∧ List.count 100 l2 = 1) :=
  zdebug_realloc_backend_failure_safe
    { store := [(100, ⟨none, none, "a", 2, 7, ZDEBUG_MAGIC_ALIVE, [1, 2],
        List.replicate ZDEBUG_CANARY_SIZE ZDEBUG_CANARY_VAL⟩)],
      ghead := some 100, nextAddr := 200 }
    100
    ⟨none, none, "a", 2, 7, ZDEBUG_MAGIC_ALIVE, [1, 2],
      List.replicate ZDEBUG_CANARY_SIZE ZDEBUG_CANARY_VAL⟩
    [100] 5 "g" 9 true
    (by rfl) (by decide) (by rfl) (by rfl) (by rfl) (by decide) (by decide)

theorem alookup_aupd_keepmfl (s : List (Nat × GAlloc)) (a x : Nat)
    (f : GAlloc → GAlloc)
    (hf : ∀ v, (f v).magic = v.magic ∧ (f v).file = v.file ∧ (f v).line = v.line)
    (v : GAlloc) (hv : alookup s x = some v) :
    ∃ w, alookup (aupd s a f) x = some w ∧ w.magic = v.magic ∧
      w.file = v.file ∧ w.line = v.line := by
  by_cases hx : x = a
  · subst hx
    refine ⟨f v, ?_, (hf v).1, (hf v).2.1, (hf v).2.2⟩
    rw [alookup_aupd_self, hv]
    rfl
  · rw [alookup_aupd_ne _ _ _ _ hx]
    exact ⟨v, hv, rfl, rfl, rfl⟩

theorem gRemove_keepmfl (s : List (Nat × GAlloc)) (g : Option Nat) (p x : Nat)
    (v : GAlloc) (hv : alookup s x = some v) :
    ∃ w, alookup (gRemove s g p).1 x = some w ∧ w.magic = v.magic ∧
      w.file = v.file ∧ w.line = v.line := by
  unfold gRemove
  cases hl : alookup s p with
  | none => exact ⟨v, hv, rfl, rfl, rfl⟩
  | some h =>
    dsimp only
    cases hhp : h.prev with
    | none =>
      cases hhn : h.next with
      | none => exact ⟨v, hv, rfl, rfl, rfl⟩
      | some r =>
        dsimp only
        exact alookup_aupd_keepmfl s r x
          (fun al => { al with prev := none }) (fun v2 => ⟨rfl, rfl, rfl⟩) v hv
    | some q =>
      cases hhn : h.next with
      | none =>
        dsimp only
        exact alookup_aupd_keepmfl s q x
          (fun al => { al with next := none }) (fun v2 => ⟨rfl, rfl, rfl⟩) v hv
      | some r =>
        dsimp only
        obtain ⟨w1, hw1, hm1, hf1, hl1⟩ :=
          alookup_aupd_keepmfl s q x
            (fun al => { al with next := some r }) (fun v2 => ⟨rfl, rfl, rfl⟩) v hv
        obtain ⟨w2, hw2, hm2, hf2, hl2⟩ :=
          alookup_aupd_keepmfl _ r x
            (fun al => { al with prev := some q }) (fun v2 => ⟨rfl, rfl, rfl⟩) w1 hw1
        exact ⟨w2, hw2, hm2.trans hm1, hf2.trans hf1, hl2.trans hl1⟩

/-- C6: for every zdebug_free call on a non-null pointer whose header is in
the modelled memory, if the header's magic is not ALIVE or the canary bytes
after the payload differ from the sentinel pattern, the call aborts (it
never returns normally), and the diagnostic identifies the violation:
double-free when the magic is FREED (carrying the original allocation
site), invalid free when the magic is any other non-ALIVE value, buffer
overflow when the magic is ALIVE and the canary mismatches (carrying the
original allocation site).  Moreover releasing the same pointer twice takes
the fatal double-free path: after any successful zdebug_free of p, a second
zdebug_free of p aborts with the double-free diagnostic. -/
theorem zdebug_free_violation_aborts :
    (∀ (st : GState) (p : Nat) (al : GAlloc),
      alookup st.store p = some al →
      (al.magic ≠ ZDEBUG_MAGIC_ALIVE ∨ canaryOkB al = false) →
      ∃ d, zdebug_free st (some p) = .error d ∧
        (al.magic = ZDEBUG_MAGIC_FREED → d = .doubleFree al.file al.line) ∧
        (al.magic ≠ ZDEBUG_MAGIC_ALIVE → al.magic ≠ ZDEBUG_MAGIC_FREED →
          d = .invalidFree) ∧
        (al.magic = ZDEBUG_MAGIC_ALIVE → canaryOkB al = false →
          d = .overflowFree al.file al.line)) ∧
    (∀ (st : GState) (p : Nat) (st2 : GState) (cs : List BackendCall),
      zdebug_free st (some p) = .ok (st2, cs) →
      ∃ file line, zdebug_free st2 (some p)
        = .error (.doubleFree file line)) := by
  constructor
  · intro st p al hal hviol
    unfold zdebug_free
    dsimp only
    rw [hal]
    dsimp only
    by_cases hm : al.magic = ZDEBUG_MAGIC_ALIVE
    · have hcan : canaryOkB al = false := by
        rcases hviol with h | h
        · exact absurd hm h
        · exact h
      rw [if_neg (fun hne => hne hm), if_pos (by rw [hcan]; simp)]
      refine ⟨GDiag.overflowFree al.file al.line, rfl, ?_, ?_, fun _ _ => rfl⟩
      · intro hf
        rw [hm] at hf
        exact absurd hf (by decide)
      · intro hna _
        exact absurd hm hna
    · rw [if_pos hm]
      by_cases hf : al.magic = ZDEBUG_MAGIC_FREED
      · rw [if_pos hf]
        exact ⟨GDiag.doubleFree al.file al.line, rfl, fun _ => rfl,
          fun _ hnf => absurd hf hnf, fun ha _ => absurd ha hm⟩
      · rw [if_neg hf]
        exact ⟨GDiag.invalidFree, rfl, fun hff => absurd hff hf,
          fun _ _ => rfl, fun ha _ => absurd ha hm⟩
  · intro st p st2 cs heq
    unfold zdebug_free at heq
    dsimp only at heq
    cases hal : alookup st.store p with
    | none =>
      rw [hal] at heq
      exact Except.noConfusion heq
    | some al =>
      rw [hal] at heq
      dsimp only at heq
      split at heq
      · split at heq <;> exact Except.noConfusion heq
      · split at heq
        · exact Except.noConfusion heq
        · cases heq
          have hupd : alookup (aupd st.store p
              (fun al2 => { al2 with magic := ZDEBUG_MAGIC_FREED })) p
              = some { al with magic := ZDEBUG_MAGIC_FREED } := by
            rw [alookup_aupd_self, hal]
            rfl
          obtain ⟨w, hw, hwm, hwf, hwl⟩ := gRemove_keepmfl _ st.ghead p p _ hupd
          refine ⟨w.file, w.line, ?_⟩
          unfold zdebug_free
          dsimp only
          rw [hw]
          dsimp only
          rw [if_pos (by rw [hwm]; show ZDEBUG_MAGIC_FREED ≠ ZDEBUG_MAGIC_ALIVE; decide),
              if_pos (by rw [hwm])]

/-- Witness for C6: a free of a FREED header aborts as a double free, and
after a successful free of a live pointer a second free of it aborts as a
double free. -/
theorem zdebug_free_violation_aborts_witness :
    (∃ d, zdebug_free
        { store := [(50, ⟨none, none, "x", 1, 3, ZDEBUG_MAGIC_FREED, [0],
            List.replicate ZDEBUG_CANARY_SIZE ZDEBUG_CANARY_VAL⟩)],
          ghead := none, nextAddr := 90 } (some 50) = .error d ∧
      (ZDEBUG_MAGIC_FREED = ZDEBUG_MAGIC_FREED → d = .doubleFree "x" 3) ∧
      (ZDEBUG_MAGIC_FREED ≠ ZDEBUG_MAGIC_ALIVE →
        ZDEBUG_MAGIC_FREED ≠ ZDEBUG_MAGIC_FREED → d = .invalidFree) ∧
      (ZDEBUG_MAGIC_FREED = ZDEBUG_MAGIC_ALIVE →
        canaryOkB ⟨none, none, "x", 1, 3, ZDEBUG_MAGIC_FREED, [0],
          List.replicate ZDEBUG_CANARY_SIZE ZDEBUG_CANARY_VAL⟩ = false →
        d = .overflowFree "x" 3)) ∧
    (∃ file line, zdebug_free
        ((zdebug_free
          { store := [(100, ⟨none, none, "a", 2, 7, ZDEBUG_MAGIC_ALIVE, [1, 2],
              List.replicate ZDEBUG_CANARY_SIZE ZDEBUG_CANARY_VAL⟩)],
            ghead := some 100, nextAddr := 200 } (some 100)).toOption.getD
          ({ store := [], ghead := none, nextAddr := 0 }, [])).1 (some 100)
        = .error (.doubleFree file line)) :=
  ⟨zdebug_free_violation_aborts.1
    { store := [(50, ⟨none, none, "x", 1, 3, ZDEBUG_MAGIC_FREED, [0],
        List.replicate ZDEBUG_CANARY_SIZE ZDEBUG_CANARY_VAL⟩)],
      ghead := none, nextAddr := 90 } 50
    ⟨none, none, "x", 1, 3, ZDEBUG_MAGIC_FREED, [0],
      List.replicate ZDEBUG_CANARY_SIZE ZDEBUG_CANARY_VAL⟩
    (by rfl) (Or.inl (by decide)),
   zdebug_free_violation_aborts.2
    { store := [(100, ⟨none, none, "a", 2, 7, ZDEBUG_MAGIC_ALIVE, [1, 2],
        List.replicate ZDEBUG_CANARY_SIZE ZDEBUG_CANARY_VAL⟩)],
      ghead := some 100, nextAddr := 200 } 100 _ _ (by rfl)⟩

theorem alookup_cons_ne {β : Type} (k : Nat) (v : β) (s : List (Nat × β))
    (x : Nat) (h : k ≠ x) : alookup ((k, v) :: s) x = alookup s x := by
  simp [alookup, h]

theorem gAdd_keepmfl (s : List (Nat × GAlloc)) (g : Option Nat) (p x : Nat)
    (v : GAlloc) (hv : alookup s x = some v) :
    ∃ w, alookup (gAdd s g p).1 x = some w ∧ w.magic = v.magic ∧
      w.file = v.file ∧ w.line = v.line := by
  unfold gAdd
  cases g with
  | none =>
    dsimp only
    exact alookup_aupd_keepmfl s p x
      (fun al => { al with next := none, prev := none })
      (fun v2 => ⟨rfl, rfl, rfl⟩) v hv
  | some g0 =>
    dsimp only
    obtain ⟨w1, hw1, hm1, hf1, hl1⟩ :=
      alookup_aupd_keepmfl s p x
        (fun al => { al with next := some g0, prev := none })
        (fun v2 => ⟨rfl, rfl, rfl⟩) v hv
    obtain ⟨w2, hw2, hm2, hf2, hl2⟩ :=
      alookup_aupd_keepmfl _ g0 x
        (fun al => { al with prev := some p }) (fun v2 => ⟨rfl, rfl, rfl⟩) w1 hw1
    exact ⟨w2, hw2, hm2.trans hm1, hf2.trans hf1, hl2.trans hl1⟩

theorem keys_gAdd (s : List (Nat × GAlloc)) (g : Option Nat) (p : Nat) :
    ((gAdd s g p).1).map Prod.fst = s.map Prod.fst := by
  unfold gAdd
  cases g with
  | none => exact keys_aupd s p _
  | some g0 =>
    dsimp only
    rw [keys_aupd, keys_aupd]

theorem keys_gRemove (s : List (Nat × GAlloc)) (g : Option Nat) (p : Nat) :
    ((gRemove s g p).1).map Prod.fst = s.map Prod.fst := by
  unfold gRemove
  cases hl : alookup s p with
  | none => rfl
  | some h =>
    dsimp only
    cases h.prev with
    | none =>
      cases h.next with
      | none => rfl
      | some r => exact keys_aupd _ r _
    | some q =>
      cases h.next with
      | none => exact keys_aupd _ q _
      | some r =>
        dsimp only
        rw [keys_aupd, keys_aupd]

theorem chainOk_cons_fresh (s : List (Nat × GAlloc)) (k : Nat) (v : GAlloc)
    (l : List Nat) (pr c : Option Nat) (h : ∀ a ∈ l, a ≠ k) :
    chainOkB ((k, v) :: s) pr c l = chainOkB s pr c l := by
  apply chainOk_congr
  intro a ha
  rw [alookup_cons_ne _ _ _ _ (fun he => h a ha he.symm)]

theorem chainOk_aupd_linkpres (s : List (Nat × GAlloc)) (a : Nat)
    (f : GAlloc → GAlloc)
    (hf : ∀ v, (f v).prev = v.prev ∧ (f v).next = v.next)
    (l : List Nat) (pr c : Option Nat) :
    chainOkB (aupd s a f) pr c l = chainOkB s pr c l := by
  apply chainOk_congr
  intro x hx
  by_cases hxa : x = a
  · subst hxa
    rw [alookup_aupd_self]
    cases hv : alookup s x with
    | none => rfl
    | some v =>
      simp [links, Option.map_some, (hf v).1, (hf v).2]
  · rw [alookup_aupd_ne _ _ _ _ hxa]

theorem chainOk_aremove (s : List (Nat × GAlloc)) (p : Nat)
    (l : List Nat) (pr c : Option Nat) (h : ∀ a ∈ l, a ≠ p) :
    chainOkB (aremove s p) pr c l = chainOkB s pr c l := by
  apply chainOk_congr
  intro a ha
  rw [alookup_aremove_ne _ _ _ (h a ha)]

theorem chain_mem_keys (s : List (Nat × GAlloc)) (l : List Nat)
    (pr c : Option Nat) (hc : chainOkB s pr c l = true) :
    ∀ a ∈ l, a ∈ s.map Prod.fst := by
  intro a ha
  obtain ⟨v, hv⟩ := chainOk_mem_lookup s l pr c hc a ha
  exact alookup_mem_keys hv

theorem chain_mem_bound (s : List (Nat × GAlloc)) (l : List Nat)
    (pr c : Option Nat) (n : Nat) (hc : chainOkB s pr c l = true)
    (hb : ∀ pr2 ∈ s, (pr2 : Nat × GAlloc).1 < n) :
    ∀ a ∈ l, a < n := by
  intro a ha
  obtain ⟨v, hv⟩ := chainOk_mem_lookup s l pr c hc a ha
  exact hb (a, v) (alookup_mem hv)

theorem alookup_isSome_of_mem {β : Type} {s : List (Nat × β)} {k : Nat} {v : β}
    (h : (k, v) ∈ s) : ∃ w, alookup s k = some w := by
  induction s with
  | nil => simp at h
  | cons hd t ih =>
    obtain ⟨k2, v2⟩ := hd
    by_cases hk : k2 = k
    · subst hk
      exact ⟨v2, by simp [alookup]⟩
    · rcases List.mem_cons.mp h with he | hm
      · cases he
        exact absurd rfl hk
      · rw [alookup_cons_ne _ _ _ _ hk]
        exact ih hm

theorem GoodW_zdebug_malloc (st : GState) (s : Nat) (f : String) (ln : Int)
    (ok : Bool) (l : List Nat) (hg : GoodW st l) :
    ∃ l2, GoodW (zdebug_malloc_loc st s f ln ok).2.1 l2 := by
  unfold zdebug_malloc_loc
  by_cases hs : s = 0
  · rw [if_pos hs]
    exact ⟨l, hg⟩
  · rw [if_neg hs]
    cases ok with
    | false => exact ⟨l, hg⟩
    | true =>
      dsimp only
      rw [if_pos rfl]
      obtain ⟨hchain, hnd, hmem, hknd, hbound⟩ := hg
      have hlbound : ∀ a ∈ l, a < st.nextAddr :=
        chain_mem_bound st.store l none st.ghead st.nextAddr hchain hbound
      have hpl : st.nextAddr + hdrG ∉ l := by
        intro hm
        have := hlbound _ hm
        omega
      have hlne : ∀ a ∈ l, a ≠ st.nextAddr + hdrG := by
        intro a ha he
        exact hpl (he ▸ ha)
      have hpk : st.nextAddr + hdrG ∉ st.store.map Prod.fst := by
        intro hm
        obtain ⟨pr, hpr, he⟩ := List.mem_map.mp hm
        have := hbound pr hpr
        omega
      have hchain0 : chainOkB ((st.nextAddr + hdrG,
          { prev := none, next := none, file := f, size := s, line := ln,
            magic := ZDEBUG_MAGIC_ALIVE,
            payload := List.replicate s junkByte,
            canary := List.replicate ZDEBUG_CANARY_SIZE ZDEBUG_CANARY_VAL }) :: st.store)
          none st.ghead l = true := by
        rw [chainOk_cons_fresh _ _ _ _ _ _ hlne]
        exact hchain
      have hlook0 := alookup_cons_self (st.nextAddr + hdrG)
        ({ prev := none, next := none, file := f, size := s, line := ln,
           magic := ZDEBUG_MAGIC_ALIVE,
           payload := List.replicate s junkByte,
           canary := List.replicate ZDEBUG_CANARY_SIZE ZDEBUG_CANARY_VAL } : GAlloc)
        st.store
      have hadd := chainOk_gAdd _ st.ghead (st.nextAddr + hdrG) l _
        hchain0 hnd hpl hlook0
      refine ⟨(st.nextAddr + hdrG) :: l, hadd, List.nodup_cons.mpr ⟨hpl, hnd⟩, ?_, ?_, ?_⟩
      · intro pr hpr
        have hkeys2 : (((gAdd ((st.nextAddr + hdrG,
            { prev := none, next := none, file := f, size := s, line := ln,
              magic := ZDEBUG_MAGIC_ALIVE,
              payload := List.replicate s junkByte,
              canary := List.replicate ZDEBUG_CANARY_SIZE ZDEBUG_CANARY_VAL }) :: st.store)
            st.ghead (st.nextAddr + hdrG)).1).map Prod.fst)
            = (st.nextAddr + hdrG) :: st.store.map Prod.fst := by
          rw [keys_gAdd]
          rfl
        have hknd2 : (((gAdd ((st.nextAddr + hdrG,
            { prev := none, next := none, file := f, size := s, line := ln,
              magic := ZDEBUG_MAGIC_ALIVE,
              payload := List.replicate s junkByte,
              canary := List.replicate ZDEBUG_CANARY_SIZE ZDEBUG_CANARY_VAL }) :: st.store)
            st.ghead (st.nextAddr + hdrG)).1).map Prod.fst).Nodup := by
          rw [hkeys2]
          exact List.nodup_cons.mpr ⟨hpk, hknd⟩
        have hlpr := alookup_of_mem_nodup hknd2 hpr
        by_cases hx : pr.1 = st.nextAddr + hdrG
        · obtain ⟨w, hw, hwm, _, _⟩ := gAdd_keepmfl _ st.ghead (st.nextAddr + hdrG)
            (st.nextAddr + hdrG) _ hlook0
          rw [hx] at hlpr
          have := Option.some.inj (hw.symm.trans hlpr)
          constructor
          · intro _
            rw [hx]
            exact List.mem_cons_self _ _
          · intro _
            rw [← this, hwm]
        · have hxk : pr.1 ∈ st.store.map Prod.fst := by
            have : pr.1 ∈ (st.nextAddr + hdrG) :: st.store.map Prod.fst := by
              rw [← hkeys2]
              exact List.mem_map.mpr ⟨pr, hpr, rfl⟩
            rcases List.mem_cons.mp this with he | hm
            · exact absurd he hx
            · exact hm
          obtain ⟨pr0, hpr0, hpr0e⟩ := List.mem_map.mp hxk
          obtain ⟨v, hv⟩ := alookup_isSome_of_mem (by
            rw [show pr0 = (pr.1, pr0.2) by rw [← hpr0e]] at hpr0
            exact hpr0)
          have hv0 : alookup ((st.nextAddr + hdrG,
              { prev := none, next := none, file := f, size := s, line := ln,
                magic := ZDEBUG_MAGIC_ALIVE,
                payload := List.replicate s junkByte,
                canary := List.replicate ZDEBUG_CANARY_SIZE ZDEBUG_CANARY_VAL }) :: st.store)
              pr.1 = some v := by
            rw [alookup_cons_ne _ _ _ _ (fun he => hx he.symm)]
            exact hv
          obtain ⟨w, hw, hwm, _, _⟩ := gAdd_keepmfl _ st.ghead (st.nextAddr + hdrG)
            pr.1 _ hv0
          have hweq := Option.some.inj (hw.symm.trans hlpr)
          have hold := hmem (pr.1, v) (alookup_mem hv)
          constructor
          · intro hmag
            refine List.mem_cons_of_mem _ ?_
            apply hold.mp
            rw [← hweq, hwm] at hmag
            exact hmag
          · intro hml
            rcases List.mem_cons.mp hml with he | hm2
            · exact absurd he hx
            · rw [← hweq, hwm]
              exact hold.mpr hm2
      · rw [keys_gAdd]
        exact List.nodup_cons.mpr ⟨hpk, hknd⟩
      · intro pr hpr
        have : pr.1 ∈ (st.nextAddr + hdrG) :: st.store.map Prod.fst := by
          have h2 : pr.1 ∈ ((gAdd ((st.nextAddr + hdrG,
              { prev := none, next := none, file := f, size := s, line := ln,
                magic := ZDEBUG_MAGIC_ALIVE,
                payload := List.replicate s junkByte,
                canary := List.replicate ZDEBUG_CANARY_SIZE ZDEBUG_CANARY_VAL }) :: st.store)
              st.ghead (st.nextAddr + hdrG)).1).map Prod.fst :=
            List.mem_map.mpr ⟨pr, hpr, rfl⟩
          rw [keys_gAdd] at h2
          exact h2
        rcases List.mem_cons.mp this with he | hm
        · rw [he]
          dsimp only
          omega
        · obtain ⟨pr0, hpr0, hpr0e⟩ := List.mem_map.mp hm
          have := hbound pr0 hpr0
          dsimp only
          omega

theorem mem_aupd_magicpres (S : List (Nat × GAlloc)) (a : Nat)
    (f : GAlloc → GAlloc) (hf : ∀ v, (f v).magic = v.magic) (l : List Nat)
    (hmem : ∀ pr ∈ S, ((pr : Nat × GAlloc).2.magic = ZDEBUG_MAGIC_ALIVE ↔ pr.1 ∈ l)) :
    ∀ pr ∈ aupd S a f, ((pr : Nat × GAlloc).2.magic = ZDEBUG_MAGIC_ALIVE ↔ pr.1 ∈ l) := by
  intro pr hpr
  rcases mem_aupd_elim hpr with h | ⟨v, hv, he⟩
  · exact hmem pr h
  · subst he
    have := hmem (a, v) hv
    dsimp only at this ⊢
    rw [hf v]
    exact this

theorem bound_aupd {β : Type} (S : List (Nat × β)) (a : Nat) (f : β → β)
    (n : Nat) (hb : ∀ pr ∈ S, (pr : Nat × β).1 < n) :
    ∀ pr ∈ aupd S a f, (pr : Nat × β).1 < n := by
  intro pr hpr
  rcases mem_aupd_elim hpr with h | ⟨v, hv, he⟩
  · exact hb pr h
  · subst he
    exact hb (a, v) hv

theorem mem_gAdd_magicpres (S : List (Nat × GAlloc)) (g : Option Nat) (p : Nat)
    (l : List Nat)
    (hmem : ∀ pr ∈ S, ((pr : Nat × GAlloc).2.magic = ZDEBUG_MAGIC_ALIVE ↔ pr.1 ∈ l)) :
    ∀ pr ∈ (gAdd S g p).1,
      ((pr : Nat × GAlloc).2.magic = ZDEBUG_MAGIC_ALIVE ↔ pr.1 ∈ l) := by
  unfold gAdd
  cases g with
  | none =>
    dsimp only
    exact mem_aupd_magicpres S p
      (fun al => { al with next := none, prev := none }) (fun v => rfl) l hmem
  | some g0 =>
    dsimp only
    exact mem_aupd_magicpres _ g0
      (fun al => { al with prev := some p }) (fun v => rfl) l
      (mem_aupd_magicpres S p
        (fun al => { al with next := some g0, prev := none }) (fun v => rfl) l hmem)

theorem bound_gAdd (S : List (Nat × GAlloc)) (g : Option Nat) (p : Nat)
    (n : Nat) (hb : ∀ pr ∈ S, (pr : Nat × GAlloc).1 < n) :
    ∀ pr ∈ (gAdd S g p).1, (pr : Nat × GAlloc).1 < n := by
  unfold gAdd
  cases g with
  | none =>
    dsimp only
    exact bound_aupd S p (fun al => { al with next := none, prev := none }) n hb
  | some g0 =>
    dsimp only
    exact bound_aupd _ g0 (fun al => { al with prev := some p }) n
      (bound_aupd S p (fun al => { al with next := some g0, prev := none }) n hb)

theorem mem_gRemove_magicpres (S : List (Nat × GAlloc)) (g : Option Nat)
    (p : Nat) (l : List Nat)
    (hmem : ∀ pr ∈ S, ((pr : Nat × GAlloc).2.magic = ZDEBUG_MAGIC_ALIVE ↔ pr.1 ∈ l)) :
    ∀ pr ∈ (gRemove S g p).1,
      ((pr : Nat × GAlloc).2.magic = ZDEBUG_MAGIC_ALIVE ↔ pr.1 ∈ l) := by
  unfold gRemove
  cases hl : alookup S p with
  | none => exact hmem
  | some h =>
    dsimp only
    cases hhp : h.prev with
    | none =>
      cases hhn : h.next with
      | none => exact hmem
      | some r =>
        dsimp only
        exact mem_aupd_magicpres S r
          (fun al => { al with prev := none }) (fun v => rfl) l hmem
    | some q =>
      cases hhn : h.next with
      | none =>
        dsimp only
        exact mem_aupd_magicpres S q
          (fun al => { al with next := none }) (fun v => rfl) l hmem
      | some r =>
        dsimp only
        exact mem_aupd_magicpres _ r
          (fun al => { al with prev := some q }) (fun v => rfl) l
          (mem_aupd_magicpres S q
            (fun al => { al with next := some r }) (fun v => rfl) l hmem)

theorem bound_gRemove (S : List (Nat × GAlloc)) (g : Option Nat) (p : Nat)
    (n : Nat) (hb : ∀ pr ∈ S, (pr : Nat × GAlloc).1 < n) :
    ∀ pr ∈ (gRemove S g p).1, (pr : Nat × GAlloc).1 < n := by
  unfold gRemove
  cases hl : alookup S p with
  | none => exact hb
  | some h =>
    dsimp only
    cases hhp : h.prev with
    | none =>
      cases hhn : h.next with
      | none => exact hb
      | some r =>
        dsimp only
        exact bound_aupd S r (fun al => { al with prev := none }) n hb
    | some q =>
      cases hhn : h.next with
      | none =>
        dsimp only
        exact bound_aupd S q (fun al => { al with next := none }) n hb
      | some r =>
        dsimp only
        exact bound_aupd _ r (fun al => { al with prev := some q }) n
          (bound_aupd S q (fun al => { al with next := some r }) n hb)

theorem GoodW_zdebug_calloc (st : GState) (c s : Nat) (f : String) (ln : Int)
    (ok : Bool) (l : List Nat) (hg : GoodW st l) :
    ∃ l2, GoodW (zdebug_calloc_loc st c s f ln ok).2.1 l2 := by
  unfold zdebug_calloc_loc
  dsimp only
  obtain ⟨l2, hg2⟩ := GoodW_zdebug_malloc st ((c * s) % 2 ^ SIZET_BITS) f ln ok l hg
  cases hr : (zdebug_malloc_loc st ((c * s) % 2 ^ SIZET_BITS) f ln ok).1 with
  | none => exact ⟨l2, hg2⟩
  | some p =>
    dsimp only
    obtain ⟨hchain, hnd, hmem, hknd, hbound⟩ := hg2
    refine ⟨l2, ?_, hnd, ?_, ?_, ?_⟩
    · rw [chainOk_aupd_linkpres _ p
        (fun al => { al with payload := List.replicate (c * s % 2 ^ SIZET_BITS) 0 })
        (fun v => ⟨rfl, rfl⟩)]
      exact hchain
    · exact mem_aupd_magicpres _ p
        (fun al => { al with payload := List.replicate (c * s % 2 ^ SIZET_BITS) 0 })
        (fun v => rfl) l2 hmem
    · rw [keys_aupd]
      exact hknd
    · exact bound_aupd _ p
        (fun al => { al with payload := List.replicate (c * s % 2 ^ SIZET_BITS) 0 })
        _ hbound

theorem mem_aupd_elim_nodup {β : Type} {s : List (Nat × β)} {a : Nat}
    {f : β → β} {pr : Nat × β} (hnd : (s.map Prod.fst).Nodup)
    (h : pr ∈ aupd s a f) :
    (pr ∈ s ∧ pr.1 ≠ a) ∨ ∃ v, (a, v) ∈ s ∧ pr = (a, f v) := by
  induction s with
  | nil => simp [aupd] at h
  | cons hd t ih =>
    obtain ⟨k, w⟩ := hd
    simp only [List.map_cons] at hnd
    obtain ⟨hk1, hk2⟩ := List.nodup_cons.mp hnd
    by_cases hka : k = a
    · subst hka
      simp only [aupd, if_pos rfl] at h
      rcases List.mem_cons.mp h with he | hm
      · exact Or.inr ⟨w, List.mem_cons_self _ _, he⟩
      · refine Or.inl ⟨List.mem_cons_of_mem _ hm, ?_⟩
        intro he
        exact hk1 (he ▸ List.mem_map.mpr ⟨pr, hm, rfl⟩)
    · simp only [aupd, if_neg hka] at h
      rcases List.mem_cons.mp h with he | hm
      · subst he
        exact Or.inl ⟨List.mem_cons_self _ _, hka⟩
      · rcases ih hk2 hm with ⟨h1, h2⟩ | ⟨v, hv, he⟩
        · exact Or.inl ⟨List.mem_cons_of_mem _ h1, h2⟩
        · exact Or.inr ⟨v, List.mem_cons_of_mem _ hv, he⟩

theorem GoodW_zdebug_free (st : GState) (ptr : Option Nat) (st2 : GState)
    (cs : List BackendCall) (l : List Nat) (hg : GoodW st l)
    (heq : zdebug_free st ptr = .ok (st2, cs)) :
    ∃ l2, GoodW st2 l2 := by
  unfold zdebug_free at heq
  cases ptr with
  | none =>
    cases heq
    exact ⟨l, hg⟩
  | some p =>
    dsimp only at heq
    cases hal : alookup st.store p with
    | none =>
      rw [hal] at heq
      exact Except.noConfusion heq
    | some al =>
      rw [hal] at heq
      dsimp only at heq
      split at heq
      · split at heq <;> exact Except.noConfusion heq
      case isFalse hmagic =>
        split at heq
        · exact Except.noConfusion heq
        case isFalse hcan =>
          cases heq
          obtain ⟨hchain, hnd, hmem, hknd, hbound⟩ := hg
          have hm : al.magic = ZDEBUG_MAGIC_ALIVE := not_not.mp hmagic
          have hpl : p ∈ l := (hmem (p, al) (alookup_mem hal)).mp hm
          obtain ⟨l1, lr, hsplit⟩ := List.append_of_mem hpl
          subst hsplit
          have hchain0 : chainOkB (aupd st.store p
              (fun al2 => { al2 with magic := ZDEBUG_MAGIC_FREED }))
              none st.ghead (l1 ++ p :: lr) = true := by
            rw [chainOk_aupd_linkpres _ p
              (fun al2 => { al2 with magic := ZDEBUG_MAGIC_FREED })
              (fun v => ⟨rfl, rfl⟩)]
            exact hchain
          have hlook0 : alookup (aupd st.store p
              (fun al2 => { al2 with magic := ZDEBUG_MAGIC_FREED })) p
              = some { al with magic := ZDEBUG_MAGIC_FREED } := by
            rw [alookup_aupd_self, hal]
            rfl
          have hndrem : (l1 ++ lr).Nodup :=
            hnd.sublist (List.Sublist.append_left (List.sublist_cons_self p lr) l1)
          have hpnin : p ∉ l1 ++ lr := by
            intro hmm
            rcases List.mem_append.mp hmm with hm2 | hm2
            · exact (List.disjoint_of_nodup_append hnd) hm2 (List.mem_cons_self _ _)
            · exact (List.nodup_cons.mp (List.nodup_append.mp hnd).2.1).1 hm2
          have hrem := chainOk_gRemove _ st.ghead p _ l1 lr hlook0 hchain0 hnd
          have hmem0 : ∀ pr ∈ aupd st.store p
              (fun al2 => { al2 with magic := ZDEBUG_MAGIC_FREED }),
              ((pr : Nat × GAlloc).2.magic = ZDEBUG_MAGIC_ALIVE ↔ pr.1 ∈ l1 ++ lr) := by
            intro pr hpr
            rcases mem_aupd_elim_nodup hknd hpr with ⟨hin, hne⟩ | ⟨v, hv, he⟩
            · have hold := hmem pr hin
              constructor
              · intro hmag
                have := hold.mp hmag
                rcases List.mem_append.mp this with hm2 | hm2
                · exact List.mem_append_left _ hm2
                · rcases List.mem_cons.mp hm2 with he2 | hm3
                  · exact absurd he2 hne
                  · exact List.mem_append_right _ hm3
              · intro hmm
                apply hold.mpr
                rcases List.mem_append.mp hmm with hm2 | hm2
                · exact List.mem_append_left _ hm2
                · exact List.mem_append_right _ (List.mem_cons_of_mem _ hm2)
            · subst he
              dsimp only
              constructor
              · intro hmag
                exact absurd hmag (by decide)
              · intro hmm
                exact absurd hmm hpnin
          refine ⟨l1 ++ lr, hrem, hndrem, ?_, ?_, ?_⟩
          · exact mem_gRemove_magicpres _ st.ghead p (l1 ++ lr) hmem0
          · rw [keys_gRemove, keys_aupd]
            exact hknd
          · exact bound_gRemove _ st.ghead p _
              (bound_aupd _ p _ _ hbound)

theorem GoodW_zdebug_realloc (st : GState) (ptr : Option Nat) (size : Nat)
    (f : String) (ln : Int) (ok moved : Bool) (res : Option Nat)
    (st2 : GState) (cs : List BackendCall) (l : List Nat) (hg : GoodW st l)
    (heq : zdebug_realloc_loc st ptr size f ln ok moved = .ok (res, st2, cs)) :
    ∃ l2, GoodW st2 l2 := by
  unfold zdebug_realloc_loc at heq
  cases ptr with
  | none =>
    cases heq
    exact GoodW_zdebug_malloc st size f ln ok l hg
  | some p =>
    dsimp only at heq
    by_cases hs : size = 0
    · rw [if_pos hs] at heq
      cases hfr : zdebug_free st (some p) with
      | error d =>
        rw [hfr] at heq
        exact Except.noConfusion heq
      | ok r =>
        rw [hfr] at heq
        dsimp only at heq
        cases heq
        exact GoodW_zdebug_free st (some p) r.1 r.2 l hg (by rw [hfr])
    · rw [if_neg hs] at heq
      cases hal : alookup st.store p with
      | none =>
        rw [hal] at heq
        exact Except.noConfusion heq
      | some h =>
        rw [hal] at heq
        dsimp only at heq
        split at heq
        · exact Except.noConfusion heq
        next hmagic =>
          split at heq
          · exact Except.noConfusion heq
          next hcan =>
            obtain ⟨hchain, hnd, hmem, hknd, hbound⟩ := hg
            have hm : h.magic = ZDEBUG_MAGIC_ALIVE := not_not.mp hmagic
            have hpl : p ∈ l := (hmem (p, h) (alookup_mem hal)).mp hm
            obtain ⟨l1, lr, hsplit⟩ := List.append_of_mem hpl
            subst hsplit
            have hndrem : (l1 ++ lr).Nodup :=
              hnd.sublist (List.Sublist.append_left (List.sublist_cons_self p lr) l1)
            have hpnin : p ∉ l1 ++ lr := by
              intro hmm
              rcases List.mem_append.mp hmm with hm2 | hm2
              · exact (List.disjoint_of_nodup_append hnd) hm2 (List.mem_cons_self _ _)
              · exact (List.nodup_cons.mp (List.nodup_append.mp hnd).2.1).1 hm2
            have hrem := chainOk_gRemove st.store st.ghead p h l1 lr hal hchain hnd
            have hmemrm := mem_gRemove_magicpres st.store st.ghead p (l1 ++ p :: lr) hmem
            have hiff : ∀ x : Nat, x ∈ l1 ++ p :: lr ↔ x ∈ p :: (l1 ++ lr) := by
              intro x
              simp only [List.mem_append, List.mem_cons]
              tauto
            obtain ⟨w, hw, hwm, hwf, hwl⟩ := gRemove_keepmfl st.store st.ghead p p h hal
            cases ok with
            | false =>
              cases heq
              have hfinal := chainOk_gAdd (gRemove st.store st.ghead p).1
                (gRemove st.store st.ghead p).2 p (l1 ++ lr) w hrem hndrem hpnin hw
              refine ⟨p :: (l1 ++ lr), hfinal,
                List.nodup_cons.mpr ⟨hpnin, hndrem⟩, ?_, ?_, ?_⟩
              · refine mem_gAdd_magicpres _ _ p _ ?_
                intro pr hpr
                exact (hmemrm pr hpr).trans (hiff pr.1)
              · rw [keys_gAdd, keys_gRemove]
                exact hknd
              · exact bound_gAdd _ _ p _ (bound_gRemove _ _ p _ hbound)
            | true =>
              cases moved with
              | false =>
                cases heq
                have hchain2 : chainOkB (aupd (gRemove st.store st.ghead p).1 p
                    (fun al => { al with size := size, file := f, line := ln, payload := reallocPayload al.payload al.size size, canary := List.replicate ZDEBUG_CANARY_SIZE ZDEBUG_CANARY_VAL }))
                    none (gRemove st.store st.ghead p).2 (l1 ++ lr) = true := by
                  rw [chainOk_aupd_linkpres _ p
                    (fun al => { al with size := size, file := f, line := ln, payload := reallocPayload al.payload al.size size, canary := List.replicate ZDEBUG_CANARY_SIZE ZDEBUG_CANARY_VAL })
                    (fun v => ⟨rfl, rfl⟩)]
                  exact hrem
                have hlook2 : alookup (aupd (gRemove st.store st.ghead p).1 p
                    (fun al => { al with size := size, file := f, line := ln, payload := reallocPayload al.payload al.size size, canary := List.replicate ZDEBUG_CANARY_SIZE ZDEBUG_CANARY_VAL })) p
                    = some { w with size := size, file := f, line := ln, payload := reallocPayload w.payload w.size size, canary := List.replicate ZDEBUG_CANARY_SIZE ZDEBUG_CANARY_VAL } := by
                  rw [alookup_aupd_self, hw]
                  rfl
                have hfinal := chainOk_gAdd _ (gRemove st.store st.ghead p).2 p
                  (l1 ++ lr) _ hchain2 hndrem hpnin hlook2
                refine ⟨p :: (l1 ++ lr), hfinal,
                  List.nodup_cons.mpr ⟨hpnin, hndrem⟩, ?_, ?_, ?_⟩
                · refine mem_gAdd_magicpres _ _ p _ ?_
                  refine mem_aupd_magicpres _ p
                    (fun al => { al with size := size, file := f, line := ln, payload := reallocPayload al.payload al.size size, canary := List.replicate ZDEBUG_CANARY_SIZE ZDEBUG_CANARY_VAL })
                    (fun v => rfl) _ ?_
                  intro pr hpr
                  exact (hmemrm pr hpr).trans (hiff pr.1)
                · rw [keys_gAdd, keys_aupd, keys_gRemove]
                  exact hknd
                · exact bound_gAdd _ _ p _
                    (bound_aupd _ p _ _ (bound_gRemove _ _ p _ hbound))
              | true =>
                cases heq
                have hlbound : ∀ a ∈ l1 ++ p :: lr, a < st.nextAddr :=
                  chain_mem_bound st.store _ none st.ghead st.nextAddr hchain hbound
                have hqnin : st.nextAddr + hdrG ∉ l1 ++ lr := by
                  intro hm2
                  have h3 : st.nextAddr + hdrG ∈ l1 ++ p :: lr :=
                    (hiff _).mpr (List.mem_cons_of_mem _ hm2)
                  have := hlbound _ h3
                  omega
                have hqne : ∀ a ∈ l1 ++ lr, a ≠ st.nextAddr + hdrG :=
                  fun a ha he => hqnin (he ▸ ha)
                have hpne : ∀ a ∈ l1 ++ lr, a ≠ p :=
                  fun a ha he => hpnin (he ▸ ha)
                have hchainbase : chainOkB ((st.nextAddr + hdrG,
                    { h with size := size, file := f, line := ln, payload := reallocPayload h.payload h.size size, canary := List.replicate ZDEBUG_CANARY_SIZE ZDEBUG_CANARY_VAL }) ::
                    aremove (gRemove st.store st.ghead p).1 p) none
                    (gRemove st.store st.ghead p).2 (l1 ++ lr) = true := by
                  rw [chainOk_cons_fresh _ _ _ _ _ _ hqne,
                    chainOk_aremove _ _ _ _ _ hpne]
                  exact hrem
                have hlookq := alookup_cons_self (st.nextAddr + hdrG)
                  ({ h with size := size, file := f, line := ln, payload := reallocPayload h.payload h.size size, canary := List.replicate ZDEBUG_CANARY_SIZE ZDEBUG_CANARY_VAL } : GAlloc)
                  (aremove (gRemove st.store st.ghead p).1 p)
                have hfinal := chainOk_gAdd _ (gRemove st.store st.ghead p).2
                  (st.nextAddr + hdrG) (l1 ++ lr) _ hchainbase hndrem hqnin hlookq
                have hkndrm : (((gRemove st.store st.ghead p).1).map Prod.fst).Nodup := by
                  rw [keys_gRemove]
                  exact hknd
                refine ⟨(st.nextAddr + hdrG) :: (l1 ++ lr), hfinal,
                  List.nodup_cons.mpr ⟨hqnin, hndrem⟩, ?_, ?_, ?_⟩
                · refine mem_gAdd_magicpres _ _ (st.nextAddr + hdrG) _ ?_
                  intro pr hpr
                  rcases List.mem_cons.mp hpr with he | hm2
                  · subst he
                    dsimp only
                    constructor
                    · intro _
                      exact List.mem_cons_self _ _
                    · intro _
                      exact hm
                  · obtain ⟨hin, hnep⟩ := mem_aremove_elim hm2
                    have hold := hmemrm pr hin
                    have hbnd := bound_gRemove st.store st.ghead p st.nextAddr hbound pr hin
                    constructor
                    · intro hmag
                      have h3 := (hiff pr.1).mp (hold.mp hmag)
                      rcases List.mem_cons.mp h3 with he2 | hm3
                      · exact absurd he2 hnep
                      · exact List.mem_cons_of_mem _ hm3
                    · intro hmm
                      apply hold.mpr
                      apply (hiff pr.1).mpr
                      rcases List.mem_cons.mp hmm with he2 | hm3
                      · exfalso
                        omega
                      · exact List.mem_cons_of_mem _ hm3
                · rw [keys_gAdd]
                  simp only [List.map_cons]
                  refine List.nodup_cons.mpr ⟨?_, ?_⟩
                  · intro hmk
                    have h3 := (keys_aremove_sublist
                      (gRemove st.store st.ghead p).1 p).subset hmk
                    rw [keys_gRemove] at h3
                    obtain ⟨pr, hpr, he⟩ := List.mem_map.mp h3
                    have := hbound pr hpr
                    omega
                  · exact hkndrm.sublist (keys_aremove_sublist _ p)
                · refine bound_gAdd _ _ (st.nextAddr + hdrG) _ ?_
                  intro pr hpr
                  rcases List.mem_cons.mp hpr with he | hm2
                  · rw [he]
                    dsimp only
                    omega
                  · obtain ⟨hin, _⟩ := mem_aremove_elim hm2
                    have hb2 := bound_gRemove st.store st.ghead p st.nextAddr hbound pr hin
                    dsimp only
                    omega

theorem GoodW_gstep (st : GState) (op : GOp) (st2 : GState) (l : List Nat)
    (hg : GoodW st l) (heq : gstep st op = .ok st2) : ∃ l2, GoodW st2 l2 := by
  cases op with
  | gmalloc s f ln ok =>
    cases heq
    exact GoodW_zdebug_malloc st s f ln ok l hg
  | gcalloc c s f ln ok =>
    cases heq
    exact GoodW_zdebug_calloc st c s f ln ok l hg
  | grealloc p s f ln ok mv =>
    unfold gstep at heq
    dsimp only at heq
    cases hr : zdebug_realloc_loc st p s f ln ok mv with
    | error d =>
      rw [hr] at heq
      exact Except.noConfusion heq
    | ok r =>
      rw [hr] at heq
      dsimp only at heq
      cases heq
      exact GoodW_zdebug_realloc st p s f ln ok mv r.1 r.2.1 r.2.2 l hg (by rw [hr])
  | gfree p =>
    unfold gstep at heq
    dsimp only at heq
    cases hr : zdebug_free st p with
    | error d =>
      rw [hr] at heq
      exact Except.noConfusion heq
    | ok r =>
      rw [hr] at heq
      dsimp only at heq
      cases heq
      exact GoodW_zdebug_free st p r.1 r.2 l hg (by rw [hr])

theorem GoodW_grun (ops : List GOp) : ∀ (st st2 : GState) (l : List Nat),
    GoodW st l → grun ops st = .ok st2 → ∃ l2, GoodW st2 l2 := by
  induction ops with
  | nil =>
    intro st st2 l hg heq
    cases heq
    exact ⟨l, hg⟩
  | cons op t ih =>
    intro st st2 l hg heq
    unfold grun at heq
    cases hr : gstep st op with
    | error d =>
      rw [hr] at heq
      exact Except.noConfusion heq
    | ok st1 =>
      rw [hr] at heq
      obtain ⟨l2, hg2⟩ := GoodW_gstep st op st1 l hg hr
      exact ih st1 st2 l2 hg2 heq

theorem GoodW_gstate0 : GoodW gstate0 [] := by
  refine ⟨rfl, List.nodup_nil, ?_, ?_, ?_⟩
  · intro pr hpr
    simp [gstate0] at hpr
  · simp [gstate0]
  · intro pr hpr
    simp [gstate0] at hpr

theorem walkLen_chain (s : List (Nat × GAlloc)) (l : List Nat) :
    ∀ (pr c : Option Nat) (fuel : Nat), chainOkB s pr c l = true →
      l.length ≤ fuel → walkLen s fuel c = l.length := by
  induction l with
  | nil =>
    intro pr c fuel hc _
    have hcn := chainOk_nil_elim s pr c hc
    subst hcn
    cases fuel <;> rfl
  | cons a t ih =>
    intro pr c fuel hc hf
    obtain ⟨hc1, al, hal, hprev, hrest⟩ := chainOk_cons_elim s pr c a t hc
    subst hc1
    cases fuel with
    | zero => simp at hf
    | succ fu =>
      unfold walkLen
      rw [hal]
      dsimp only
      rw [ih (some a) al.next fu hrest (by simpa using hf)]
      simp [List.length_cons]
      omega

theorem chainOk_head_prev (s : List (Nat × GAlloc)) (l : List Nat)
    (g : Option Nat) (hc : chainOkB s none g l = true) (a : Nat)
    (hg : g = some a) : ∃ al, alookup s a = some al ∧ al.prev = none := by
  subst hg
  cases l with
  | nil =>
    have := chainOk_nil_elim s none (some a) hc
    exact Option.noConfusion this
  | cons a0 t =>
    obtain ⟨h1, al0, hal0, hprev, _⟩ := chainOk_cons_elim s none (some a) a0 t hc
    have ha : a = a0 := Option.some.inj h1
    subst ha
    exact ⟨al0, hal0, hprev⟩

theorem chainOk_adjacent (s : List (Nat × GAlloc)) (l : List Nat) :
    ∀ (pr c : Option Nat), chainOkB s pr c l = true →
      ∀ a ∈ l, ∀ al b bl, alookup s a = some al → al.next = some b →
        alookup s b = some bl → bl.prev = some a := by
  induction l with
  | nil =>
    intro pr c _ a ha
    simp at ha
  | cons a0 t ih =>
    intro pr c hc a ha al b bl hal hnext hbl
    obtain ⟨hc1, al0, hal0, hprev0, hrest⟩ := chainOk_cons_elim s pr c a0 t hc
    rcases List.mem_cons.mp ha with he | hat
    · subst he
      have hale : al0 = al := Option.some.inj (hal0.symm.trans hal)
      subst hale
      rw [hnext] at hrest
      cases t with
      | nil =>
        have := chainOk_nil_elim s (some a) (some b) hrest
        exact Option.noConfusion this
      | cons b0 t2 =>
        obtain ⟨hb1, bl0, hbl0, hprevb, _⟩ :=
          chainOk_cons_elim s (some a) (some b) b0 t2 hrest
        have hbe : b = b0 := Option.some.inj hb1
        subst hbe
        have hble : bl0 = bl := Option.some.inj (hbl0.symm.trans hbl)
        subst hble
        exact hprevb
    · exact ih (some a0) al0.next hrest a hat al b bl hal hnext hbl

/-- C9: after every abort-free sequence of debug-guard operations starting
from the initial state, there is a list l of distinct addresses such that
the pointer structure rooted at the global head is exactly the doubly
linked list of l (the walk from the head visits precisely l following next
links, the head's prev is NULL, and for adjacent headers h the node
h.next has its prev pointing back at h), a stored header has magic ALIVE
exactly when its address is a member of l — the members are exactly the
allocations that succeeded and have not yet been freed — and
zdebug_print_leaks returns exactly the length of that list. -/
theorem zdebug_live_list_wellformed (ops : List GOp) (st : GState)
    (h : grun ops gstate0 = .ok st) :
    ∃ l : List Nat,
      chainOkB st.store none st.ghead l = true ∧
      l.Nodup ∧
      (∀ pr ∈ st.store,
        ((pr : Nat × GAlloc).2.magic = ZDEBUG_MAGIC_ALIVE ↔ pr.1 ∈ l)) ∧
      (∀ a, st.ghead = some a →
        ∃ al, alookup st.store a = some al ∧ al.prev = none) ∧
      (∀ a ∈ l, ∀ al b bl, alookup st.store a = some al → al.next = some b →
        alookup st.store b = some bl → bl.prev = some a) ∧
      zdebug_print_leaks st = l.length := by
  obtain ⟨l, hchain, hnd, hmem, hknd, hbound⟩ :=
    GoodW_grun ops gstate0 st [] GoodW_gstate0 h
  refine ⟨l, hchain, hnd, hmem, ?_, ?_, ?_⟩
  · intro a hga
    exact chainOk_head_prev st.store l st.ghead hchain a hga
  · exact chainOk_adjacent st.store l none st.ghead hchain
  · unfold zdebug_print_leaks
    apply walkLen_chain st.store l none st.ghead st.store.length hchain
    have hsub : l ⊆ st.store.map Prod.fst :=
      chain_mem_keys st.store l none st.ghead hchain
    have hle := (hnd.subperm hsub).length_le
    rw [List.length_map] at hle
    exact hle

/-- Witness for zdebug_live_list_wellformed: the trace mallocs 3 bytes at
address 40 and 2 bytes at address 99 and then frees 40; the final state has
the single live allocation 99 rooted at the head and the freed record at 40
with magic FREED, and zdebug_print_leaks reports 1 leak. -/
theorem zdebug_live_list_wellformed_witness :
    grun [GOp.gmalloc 3 "a" 1 true, GOp.gmalloc 2 "b" 2 true,
        GOp.gfree (some 40)] gstate0
      = .ok (⟨[(99, ⟨none, none, "b", 2, 2, ZDEBUG_MAGIC_ALIVE, List.replicate 2 junkByte, List.replicate ZDEBUG_CANARY_SIZE ZDEBUG_CANARY_VAL⟩), (40, ⟨some 99, none, "a", 3, 1, ZDEBUG_MAGIC_FREED, List.replicate 3 junkByte, List.replicate ZDEBUG_CANARY_SIZE ZDEBUG_CANARY_VAL⟩)], some 99, 117⟩ : GState) ∧
    (∃ l : List Nat,
      chainOkB (⟨[(99, ⟨none, none, "b", 2, 2, ZDEBUG_MAGIC_ALIVE, List.replicate 2 junkByte, List.replicate ZDEBUG_CANARY_SIZE ZDEBUG_CANARY_VAL⟩), (40, ⟨some 99, none, "a", 3, 1, ZDEBUG_MAGIC_FREED, List.replicate 3 junkByte, List.replicate ZDEBUG_CANARY_SIZE ZDEBUG_CANARY_VAL⟩)], some 99, 117⟩ : GState).store none (⟨[(99, ⟨none, none, "b", 2, 2, ZDEBUG_MAGIC_ALIVE, List.replicate 2 junkByte, List.replicate ZDEBUG_CANARY_SIZE ZDEBUG_CANARY_VAL⟩), (40, ⟨some 99, none, "a", 3, 1, ZDEBUG_MAGIC_FREED, List.replicate 3 junkByte, List.replicate ZDEBUG_CANARY_SIZE ZDEBUG_CANARY_VAL⟩)], some 99, 117⟩ : GState).ghead l = true ∧
      l.Nodup ∧
      (∀ pr ∈ (⟨[(99, ⟨none, none, "b", 2, 2, ZDEBUG_MAGIC_ALIVE, List.replicate 2 junkByte, List.replicate ZDEBUG_CANARY_SIZE ZDEBUG_CANARY_VAL⟩), (40, ⟨some 99, none, "a", 3, 1, ZDEBUG_MAGIC_FREED, List.replicate 3 junkByte, List.replicate ZDEBUG_CANARY_SIZE ZDEBUG_CANARY_VAL⟩)], some 99, 117⟩ : GState).store,
        ((pr : Nat × GAlloc).2.magic = ZDEBUG_MAGIC_ALIVE ↔ pr.1 ∈ l)) ∧
      (∀ a, (⟨[(99, ⟨none, none, "b", 2, 2, ZDEBUG_MAGIC_ALIVE, List.replicate 2 junkByte, List.replicate ZDEBUG_CANARY_SIZE ZDEBUG_CANARY_VAL⟩), (40, ⟨some 99, none, "a", 3, 1, ZDEBUG_MAGIC_FREED, List.replicate 3 junkByte, List.replicate ZDEBUG_CANARY_SIZE ZDEBUG_CANARY_VAL⟩)], some 99, 117⟩ : GState).ghead = some a →
        ∃ al, alookup (⟨[(99, ⟨none, none, "b", 2, 2, ZDEBUG_MAGIC_ALIVE, List.replicate 2 junkByte, List.replicate ZDEBUG_CANARY_SIZE ZDEBUG_CANARY_VAL⟩), (40, ⟨some 99, none, "a", 3, 1, ZDEBUG_MAGIC_FREED, List.replicate 3 junkByte, List.replicate ZDEBUG_CANARY_SIZE ZDEBUG_CANARY_VAL⟩)], some 99, 117⟩ : GState).store a = some al ∧ al.prev = none) ∧
      (∀ a ∈ l, ∀ al b bl, alookup (⟨[(99, ⟨none, none, "b", 2, 2, ZDEBUG_MAGIC_ALIVE, List.replicate 2 junkByte, List.replicate ZDEBUG_CANARY_SIZE ZDEBUG_CANARY_VAL⟩), (40, ⟨some 99, none, "a", 3, 1, ZDEBUG_MAGIC_FREED, List.replicate 3 junkByte, List.replicate ZDEBUG_CANARY_SIZE ZDEBUG_CANARY_VAL⟩)], some 99, 117⟩ : GState).store a = some al → al.next = some b →
        alookup (⟨[(99, ⟨none, none, "b", 2, 2, ZDEBUG_MAGIC_ALIVE, List.replicate 2 junkByte, List.replicate ZDEBUG_CANARY_SIZE ZDEBUG_CANARY_VAL⟩), (40, ⟨some 99, none, "a", 3, 1, ZDEBUG_MAGIC_FREED, List.replicate 3 junkByte, List.replicate ZDEBUG_CANARY_SIZE ZDEBUG_CANARY_VAL⟩)], some 99, 117⟩ : GState).store b = some bl → bl.prev = some a) ∧
      zdebug_print_leaks (⟨[(99, ⟨none, none, "b", 2, 2, ZDEBUG_MAGIC_ALIVE, List.replicate 2 junkByte, List.replicate ZDEBUG_CANARY_SIZE ZDEBUG_CANARY_VAL⟩), (40, ⟨some 99, none, "a", 3, 1, ZDEBUG_MAGIC_FREED, List.replicate 3 junkByte, List.replicate ZDEBUG_CANARY_SIZE ZDEBUG_CANARY_VAL⟩)], some 99, 117⟩ : GState) = l.length) :=
  ⟨rfl, zdebug_live_list_wellformed [GOp.gmalloc 3 "a" 1 true,
    GOp.gmalloc 2 "b" 2 true, GOp.gfree (some 40)] _ rfl⟩
